import Mathlib

/-!
Verification development for the workflow-lint analysis engine
(`src/app/api/lint/route.ts`, function `lint`).

The engine is shallowly embedded: JavaScript strings become Lean `String`
(manipulated through their `List Char` data), the parsed YAML tree becomes
the inductive `Yaml`, the preloaded reference data store becomes the
`Config` structure, and the fixed regular expressions of the source become
bespoke executable matchers with the same semantics (leftmost match,
greedy/lazy quantifiers resolved as the JS engine resolves them on these
particular patterns).

External collaborators are modelled as parameters:
  * `YAML.parse` (the external `yaml` npm package) is modelled by passing
    its outcome, `Except String Yaml`, into `lint`;
  * the secret-signature regexes come from a data file, so a
    `SecretPattern` carries an abstract `firstMatch : String → Option String`
    (JS `regex.test line` is true exactly when `line.match regex` is
    non-null; both are modelled by `firstMatch`);
  * localized message strings are presentation only; findings carry the
    structured message constructor (`Msg`) with the exact parameters the
    source passes to the template, and the locale is threaded unused.

Fields of a finding that are pure presentation strings (title, snippet,
recommendation, docs) and the wall-clock `duration` of the result are
omitted.  The JS code can throw inside the cron check (calling `.trim()`
on a non-string truthy `cron` value); `lint` is therefore `Except`-valued,
`.error` marking the raised `TypeError`.  The per-job line lookup builds a
`RegExp` from the job name; it is modelled as a literal-text match, which
is faithful for job names free of regex metacharacters (no claim depends
on other names).
-/

namespace Workflowlint

/-! ## Characters and strings, JS-flavoured -/

/-- JS whitespace class `\s` restricted to the characters that can occur in
the analysed documents. -/
def jsSpace (c : Char) : Bool :=
  c == ' ' || c == '\t' || c == '\n' || c == '\r' || c == '\x0b' || c == '\x0c'

/-- JS `String.prototype.trim`. -/
def jsTrim (s : String) : String :=
  String.mk (((s.data.dropWhile jsSpace).reverse.dropWhile jsSpace).reverse)

/-- Index of the first non-whitespace character, `-1` if none:
JS `line.search(/\S/)`. -/
def firstNonSpace : List Char → Nat → Int
  | [], _ => -1
  | c :: t, k => if jsSpace c then firstNonSpace t (k + 1) else (k : Int)

def jsIndent (line : String) : Int :=
  firstNonSpace line.data 0

/-- JS `s.startsWith p`. -/
def strStarts (s p : String) : Bool :=
  p.data.isPrefixOf s.data

/-- `∃` a suffix at which the Boolean matcher fires. -/
def anySuffix (p : List Char → Bool) : List Char → Bool
  | [] => p []
  | c :: cs => p (c :: cs) || anySuffix p cs

/-- JS `s.includes sub`. -/
def containsStr (s sub : String) : Bool :=
  anySuffix (fun t => sub.data.isPrefixOf t) s.data

/-- First index at which `sub` occurs in `cs`, starting the count at `k`. -/
def idxOfSubAux (sub : List Char) : List Char → Nat → Option Nat
  | [], k => if sub.isPrefixOf ([] : List Char) then some k else none
  | c :: t, k => if sub.isPrefixOf (c :: t) then some k else idxOfSubAux sub t (k + 1)

/-- JS `s.indexOf sub` (`-1` when absent). -/
def jsIndexOf (s sub : String) : Int :=
  match idxOfSubAux sub.data s.data 0 with
  | some k => (k : Int)
  | none => -1

/-- JS `code.split '\n'` (an empty string yields `[""]`). -/
def splitLinesAux (acc : List Char) : List Char → List String
  | [] => [String.mk acc.reverse]
  | c :: t => if c == '\n' then String.mk acc.reverse :: splitLinesAux [] t
              else splitLinesAux (c :: acc) t

def splitLines (code : String) : List String :=
  splitLinesAux [] code.data

/-- Try a partial matcher at every start position, left to right: the
leftmost-match rule of a JS regex whose pattern begins with a literal. -/
def scanFirst {α : Type} (p : List Char → Option α) : List Char → Option α
  | [] => p []
  | c :: cs =>
    match p (c :: cs) with
    | some a => some a
    | none => scanFirst p cs

/-- Strip a literal from the front of the character stream. -/
def stripLit (lit : String) (cs : List Char) : Option (List Char) :=
  if lit.data.isPrefixOf cs then some (cs.drop lit.data.length) else none

/-! ## Data model -/

inductive Severity where
  | critical | high | medium | low | info
deriving DecidableEq, Repr

inductive Locale where
  | tr | en
deriving DecidableEq, Repr

/-- The structured message of a finding: which localized template the
source instantiates, with the exact parameters it passes. -/
inductive Msg where
  | invalidYaml (err : String)
  | missingJobs
  | invalidEvent (event : String) (valid : List String)
  | invalidPermission (scope : String) (valid : List String)
  | invalidPermissionLevel (level : String)
  | invalidCron (cron : String)
  | missingRunsOn (job : String)
  | missingSteps (job : String)
  | expressionInjection (ctx : String)
  | hardcodedSecret (name : String)
  | dangerousTriggerPRT
  | dangerousTriggerWR
  | excessivePermissions
  | unpinnedAction (action : String) (ref : String)
  | dangerousCommand
  | unsafeCheckout
  | invalidRunner (runner : String)
  | invalidGlobPattern (tok : String)
  | invalidActionInput (input : String) (action : String) (valid : List String)
  | unknownEventKey (key : String) (event : String) (valid : List String)
deriving DecidableEq, Repr

structure Finding where
  ruleId : String
  severity : Severity
  category : String
  line : Nat
  column : Int
  msg : Msg
deriving DecidableEq, Repr

structure Summary where
  critical : Nat
  high : Nat
  medium : Nat
  low : Nat
  info : Nat
deriving DecidableEq, Repr

structure LintResult where
  findings : List Finding
  summary : Summary
  score : Int
  grade : String
deriving DecidableEq, Repr

/-- A secret-signature pattern from the reference data store.  The regex
itself is external data; it is abstracted to the function giving the first
match of the regex on a line (`none` = no match).  JS `regex.test` is
`(firstMatch line).isSome`. -/
structure SecretPattern where
  name : String
  firstMatch : String → Option String

/-- The preloaded reference data store (`runners.json`, `contexts.json`,
`secrets.json`, `schema.json`, `actions.json`), already projected the way
the source projects it at load time.  `actions` maps an action id to
`Object.keys actionMetadata.inputs`. -/
structure Config where
  validRunners : List String
  dangerousContexts : List String
  secretPatterns : List SecretPattern
  validPermissions : List String
  eventKeys : List (String × List String)
  validEvents : List String
  actions : List (String × List String)

def lookupEventKeys (cfg : Config) (ev : String) : Option (List String) :=
  (cfg.eventKeys.find? (fun p => p.1 == ev)).map (fun p => p.2)

def lookupAction (cfg : Config) (a : String) : Option (List String) :=
  (cfg.actions.find? (fun p => p.1 == a)).map (fun p => p.2)

/-! ## The parsed YAML tree -/

/-- The tree `YAML.parse` returns (scalars, sequences, string-keyed
mappings).  Numbers are modelled as integers — no claim involves
fractional values.  The parser rejects duplicate keys, so mapping keys are
unique. -/
inductive Yaml where
  | nul
  | bool (b : Bool)
  | num (n : Int)
  | str (s : String)
  | seq (xs : List Yaml)
  | map (kvs : List (String × Yaml))

/-- JS truthiness of a parsed value (`undefined` is conflated with `null`:
both arise as `Yaml.nul` and are falsy). -/
def jsTruthy : Yaml → Bool
  | .nul => false
  | .bool b => b
  | .num n => n != 0
  | .str s => !(s == "")
  | .seq _ => true
  | .map _ => true

/-- JS property access `v?.k` / `v.k` for the accesses the source makes:
a missing key, or a receiver without properties, gives `undefined`
(modelled `nul`). -/
def getProp : Yaml → String → Yaml
  | .map kvs, k =>
    match kvs.find? (fun p => p.1 == k) with
    | some p => p.2
    | none => .nul
  | _, _ => .nul

def enumPairs (n : Nat) : List Yaml → List (String × Yaml)
  | [] => []
  | x :: t => (Nat.repr n, x) :: enumPairs (n + 1) t

/-- JS `Object.entries v` guarded by `v && typeof v === 'object'`:
defined exactly for mappings and arrays (arrays enumerate stringified
indices). -/
def jsEntries : Yaml → Option (List (String × Yaml))
  | .map kvs => some kvs
  | .seq xs => some (enumPairs 0 xs)
  | _ => none

/-- `typeof v === 'object' && v` (map or array; `null` is falsy). -/
def isObjY : Yaml → Bool
  | .map _ => true
  | .seq _ => true
  | _ => false

def isMapY : Yaml → Bool
  | .map _ => true
  | _ => false

/-! ## Matchers for the fixed regexes of the source -/

/-- The mutable-ref alternation `(main|master|latest|dev|HEAD)`, in the
alternation order of the source pattern. -/
def unpinnedRefs : List String := ["main", "master", "latest", "dev", "HEAD"]

/-- First alternative of `unpinnedRefs` matching at the head of `rest`
(JS alternation tries alternatives left to right; nothing follows the
group in the pattern, so a prefix suffices). -/
def altPick (rest : List Char) : Option String :=
  unpinnedRefs.find? (fun m => m.data.isPrefixOf rest)

/-- The character class `[^@\s]` of the action-reference patterns. -/
def refIdChar (c : Char) : Bool := !jsSpace c && !(c == '@')

/-- `/uses:\s*([^@\s]+)@(main|master|latest|dev|HEAD)/` attempted at one
start position: the `\s*` run and the `[^@\s]+` run are forced (shorter
choices put a forbidden character where the next token must match), so
the attempt is deterministic. -/
def usesRefAt (cs : List Char) : Option (String × String) :=
  match stripLit "uses:" cs with
  | none => none
  | some r =>
    let t := r.dropWhile jsSpace
    let id := t.takeWhile refIdChar
    if id.isEmpty then none
    else
      match t.drop id.length with
      | '@' :: rest => (altPick rest).map (fun m => (String.mk id, m))
      | _ => none

/-- `line.match(/uses:\s*([^@\s]+)@(main|master|latest|dev|HEAD)/)`:
captured `(action, ref)` of the leftmost match. -/
def unpinnedExtract (line : String) : Option (String × String) :=
  scanFirst usesRefAt line.data

/-- JS `runner.replace(/['"]/g, '').split('#')[0].trim()`. -/
def normalizeRunner (v : List Char) : String :=
  jsTrim (String.mk ((v.filter (fun c => !(c == '\'') && !(c == '\"'))).takeWhile
    (fun c => !(c == '#'))))

/-- `/runs-on:\s*(\S+)/` attempted at one start position. -/
def runsOnAt (cs : List Char) : Option String :=
  match stripLit "runs-on:" cs with
  | none => none
  | some r =>
    let t := r.dropWhile jsSpace
    let v := t.takeWhile (fun c => !jsSpace c)
    if v.isEmpty then none else some (normalizeRunner v)

/-- `line.match(/runs-on:\s*(\S+)/)`, already normalized the way the
source normalizes the captured group. -/
def runsOnExtract (line : String) : Option String :=
  scanFirst runsOnAt line.data

/-- After the `|`: `\s*(ba)?sh`. -/
def pipeTail (cs : List Char) : Bool :=
  let r := cs.dropWhile jsSpace
  ("bash").data.isPrefixOf r || ("sh").data.isPrefixOf r

/-- `/curl\s+[^|]*\|\s*(ba)?sh/` (or `wget`) at one start position: after
the command word and one mandatory whitespace, `[^|]*` runs to the first
`|` (it cannot cross one, and backtracking cannot help). -/
def pipeShAt (cmd : String) (cs : List Char) : Bool :=
  match stripLit cmd cs with
  | none => false
  | some r =>
    match r with
    | c :: t =>
      if jsSpace c then
        match t.dropWhile (fun d => !(d == '|')) with
        | '|' :: rest => pipeTail rest
        | _ => false
      else false
    | [] => false

def curlPipeTest (line : String) : Bool :=
  anySuffix (pipeShAt "curl") line.data || anySuffix (pipeShAt "wget") line.data

/-- `/permissions:\s*write-all/` at one start position. -/
def permWriteAllAt (cs : List Char) : Bool :=
  match stripLit "permissions:" cs with
  | none => false
  | some r => ("write-all").data.isPrefixOf (r.dropWhile jsSpace)

def permWriteAllTest (line : String) : Bool :=
  anySuffix permWriteAllAt line.data

/-- `/ref:\s*\$\{\{\s*github\.event\.pull_request\.head\.sha\s*\}\}/` at
one start position (dots in the source pattern are escaped, so every
token is a literal). -/
def dangerousRefAt (cs : List Char) : Bool :=
  match stripLit "ref:" cs with
  | none => false
  | some r1 =>
    match stripLit "$\x7b\x7b" (r1.dropWhile jsSpace) with
    | none => false
    | some r2 =>
      match stripLit "github.event.pull_request.head.sha" (r2.dropWhile jsSpace) with
      | none => false
      | some r3 => ("\x7d\x7d").data.isPrefixOf (r3.dropWhile jsSpace)

/-- `code.match(/ref:\s*\$\{\{\s*github\.event\.pull_request\.head\.sha\s*\}\}/)`
as a Boolean (only its truthiness is used). -/
def dangerousRefTest (code : String) : Bool :=
  anySuffix dangerousRefAt code.data

def isQuote (c : Char) : Bool := c == '\'' || c == '\"'

def dropTrailQuote (v : List Char) : List Char :=
  match v.getLast? with
  | some c => if isQuote c && decide (2 ≤ v.length) then v.dropLast else v
  | none => v

/-- Group 1 of `trimmed.match(/^-\s*['"]?(.+?)['"]?\s*$/)`.  The input is
already trimmed, so `\s*$` matches nothing; the greedy optional quote is
taken when present, and the lazy `(.+?)` leaves a trailing quote outside
the group whenever the group stays non-empty. -/
def globPat (t : String) : Option String :=
  match t.data with
  | '-' :: rest =>
    match rest.dropWhile jsSpace with
    | [] => none
    | [c] => some (String.mk [c])
    | c :: d :: r =>
      let v := if isQuote c then d :: r else c :: d :: r
      some (String.mk (dropTrailQuote v))
  | _ => none

/-- `pattern.match(/\\[dDwWsS]/g)`: the first (leftmost) regex escape
token occurring in the pattern. -/
def firstEsc : List Char → Option String
  | '\\' :: c :: t =>
    if ("dDwWsS").data.contains c then some (String.mk ['\\', c])
    else firstEsc (c :: t)
  | _ :: t => firstEsc t
  | [] => none

/-- `trimmed.match(/^-?\s*uses:\s*([^@\s]+)@/)` (pass B): anchored, the
optional dash and both runs are forced. -/
def usesIdMatch (t : String) : Option String :=
  let cs0 := match t.data with
             | '-' :: r => r
             | r => r
  match stripLit "uses:" (cs0.dropWhile jsSpace) with
  | none => none
  | some r =>
    let t2 := r.dropWhile jsSpace
    let id := t2.takeWhile refIdChar
    if id.isEmpty then none
    else
      match t2.drop id.length with
      | '@' :: _ => some (String.mk id)
      | _ => none

def lowerUnd (c : Char) : Bool := ('a' ≤ c && c ≤ 'z') || c == '_'

/-- `trimmed.match(/^([a-z_]+):$/)` (pass C event names). -/
def evMatch (t : String) : Option String :=
  let name := t.data.takeWhile lowerUnd
  if !name.isEmpty && t.data == name ++ [':'] then some (String.mk name) else none

def lowerUndDash (c : Char) : Bool := ('a' ≤ c && c ≤ 'z') || c == '_' || c == '-'

/-- `trimmed.match(/^([a-z_-]+):/)` (pass C keys under an event). -/
def keyMatch (t : String) : Option String :=
  let k := t.data.takeWhile lowerUndDash
  if !k.isEmpty && (t.data.drop k.length).head? == some ':' then some (String.mk k)
  else none

def inputChar (c : Char) : Bool :=
  ('a' ≤ c && c ≤ 'z') || ('A' ≤ c && c ≤ 'Z') || ('0' ≤ c && c ≤ '9') || c == '_' || c == '-'

/-- `trimmed.match(/^([a-zA-Z0-9_-]+):/)` (pass B input names). -/
def inputKeyMatch (t : String) : Option String :=
  let k := t.data.takeWhile inputChar
  if !k.isEmpty && (t.data.drop k.length).head? == some ':' then some (String.mk k)
  else none

/-! ## Stateless per-line security checks -/

/-- Expression injection: inside a `run:`/`echo ` line, one finding per
dangerous context path contained in the line. -/
def exprInjFindings (cfg : Config) (line : String) (n : Nat) : List Finding :=
  if containsStr line "run:" || strStarts (jsTrim line) "echo " then
    (cfg.dangerousContexts.filter (fun ctx => containsStr line ctx)).map (fun ctx =>
      { ruleId := "expression-injection", severity := .critical, category := "security",
        line := n, column := jsIndexOf line ctx + 1, msg := .expressionInjection ctx })
  else []

/-- Hardcoded secrets: one finding per pattern whose regex matches a line
not containing the literal interpolation opener. -/
def secretFindings (cfg : Config) (line : String) (n : Nat) : List Finding :=
  (cfg.secretPatterns.filter (fun sp =>
      (sp.firstMatch line).isSome && !(containsStr line "$\x7b\x7b secrets."))).map
    (fun sp =>
      { ruleId := "hardcoded-secret", severity := .critical, category := "security",
        line := n,
        column := match sp.firstMatch line with
          | some m => jsIndexOf line m + 1
          | none => 1,
        msg := .hardcodedSecret sp.name })

def trigFindings (line : String) (n : Nat) : List Finding :=
  (if containsStr line "pull_request_target" then
    [{ ruleId := "dangerous-trigger", severity := .critical, category := "security",
       line := n, column := jsIndexOf line "pull_request_target" + 1,
       msg := .dangerousTriggerPRT }]
   else [])
  ++
  (if containsStr line "workflow_run" then
    [{ ruleId := "dangerous-trigger", severity := .high, category := "security",
       line := n, column := jsIndexOf line "workflow_run" + 1,
       msg := .dangerousTriggerWR }]
   else [])

def excessFindings (line : String) (n : Nat) : List Finding :=
  if containsStr line "write-all" || permWriteAllTest line then
    [{ ruleId := "excessive-permissions", severity := .high, category := "security",
       line := n, column := 1, msg := .excessivePermissions }]
  else []

def unpinnedFindings (line : String) (n : Nat) : List Finding :=
  match unpinnedExtract line with
  | some p =>
    [{ ruleId := "unpinned-action", severity := .high, category := "security",
       line := n, column := jsIndexOf line "uses:" + 1, msg := .unpinnedAction p.1 p.2 }]
  | none => []

def dangerCmdFindings (line : String) (n : Nat) : List Finding :=
  if curlPipeTest line then
    [{ ruleId := "dangerous-command", severity := .high, category := "security",
       line := n, column := 1, msg := .dangerousCommand }]
  else []

def checkoutFindings (code line : String) (n : Nat) : List Finding :=
  if containsStr line "actions/checkout" && containsStr code "pull_request_target" then
    if dangerousRefTest code then
      [{ ruleId := "unsafe-checkout", severity := .critical, category := "security",
         line := n, column := 1, msg := .unsafeCheckout }]
    else []
  else []

def runnerFindings (cfg : Config) (line : String) (n : Nat) : List Finding :=
  match runsOnExtract line with
  | some runner =>
    if !(containsStr runner "$\x7b\x7b") && !(cfg.validRunners.contains runner)
        && !(containsStr runner "matrix.") then
      [{ ruleId := "invalid-runner", severity := .medium, category := "syntax",
         line := n, column := jsIndexOf line runner + 1, msg := .invalidRunner runner }]
    else []
  | none => []

/-- One iteration of the stateless `lines.forEach` (source order of the
nine checks preserved). -/
def statelessLineFindings (cfg : Config) (code line : String) (n : Nat) : List Finding :=
  exprInjFindings cfg line n
  ++ secretFindings cfg line n
  ++ trigFindings line n
  ++ excessFindings line n
  ++ unpinnedFindings line n
  ++ dangerCmdFindings line n
  ++ checkoutFindings code line n
  ++ runnerFindings cfg line n

/-! ## Structural validator -/

def lineOf (o : Option Nat) : Nat :=
  match o with
  | some i => i + 1
  | none => 1

def missingJobsF (w : Yaml) (lines : List String) : List Finding :=
  if !jsTruthy w || !jsTruthy (getProp w "jobs") then
    [{ ruleId := "missing-jobs", severity := .high, category := "syntax",
       line := lineOf (lines.findIdx? (fun l => strStarts (jsTrim l) "on:")),
       column := 1, msg := .missingJobs }]
  else []

def eventF (w : Yaml) (lines : List String) (cfg : Config) : List Finding :=
  match getProp w "on" with
  | .map kvs =>
    (kvs.map (fun p => p.1)).filterMap (fun ev =>
      if !cfg.validEvents.isEmpty && !(cfg.validEvents.contains ev) then
        some { ruleId := "invalid-event", severity := .high, category := "syntax",
               line := lineOf (lines.findIdx? (fun l => strStarts (jsTrim l) (ev ++ ":"))),
               column := 1, msg := .invalidEvent ev cfg.validEvents }
      else none)
  | _ => []

def permLevels : List String := ["read", "write", "none"]

def permEntryF (lines : List String) (cfg : Config) (e : String × Yaml) : List Finding :=
  (if !cfg.validPermissions.isEmpty && !(cfg.validPermissions.contains e.1) then
    [{ ruleId := "invalid-permission", severity := .high, category := "syntax",
       line := lineOf (lines.findIdx? (fun l => strStarts (jsTrim l) (e.1 ++ ":"))),
       column := 1, msg := .invalidPermission e.1 cfg.validPermissions }]
   else [])
  ++
  (match e.2 with
   | .str s =>
     if !(permLevels.contains s) then
       [{ ruleId := "invalid-permission-level", severity := .medium, category := "syntax",
          line := lineOf (lines.findIdx? (fun l =>
            containsStr l (e.1 ++ ":") && containsStr l s)),
          column := 1, msg := .invalidPermissionLevel s }]
     else []
   | _ => [])

def permF (w : Yaml) (lines : List String) (cfg : Config) : List Finding :=
  match jsEntries (getProp w "permissions") with
  | some es => es.flatMap (permEntryF lines cfg)
  | none => []

/-- Field count of `cron.trim().split(/\s+/)` (the split of an empty
string is `[""]`, length 1). -/
def wordCountAux (inWord : Bool) : List Char → Nat
  | [] => 0
  | c :: t =>
    if jsSpace c then wordCountAux false t
    else (if inWord then 0 else 1) + wordCountAux true t

def cronPartsLen (s : String) : Nat :=
  let t := jsTrim s
  if t.data.isEmpty then 1 else wordCountAux false t.data

/-- One `on.schedule` item.  A truthy non-string `cron` makes the source
call `.trim()` on a non-string: a raised `TypeError`, modelled as
`.error`. -/
def cronItem (lines : List String) (item : Yaml) : Except String (List Finding) :=
  let c := getProp item "cron"
  if jsTruthy c then
    match c with
    | .str s =>
      .ok (if cronPartsLen s ≠ 5 then
        [{ ruleId := "invalid-cron", severity := .high, category := "syntax",
           line := lineOf (lines.findIdx? (fun l => containsStr l s)),
           column := 1, msg := .invalidCron s }]
      else [])
    | _ => .error "TypeError: scheduleItem.cron.trim is not a function"
  else .ok []

def cronItems (lines : List String) : List Yaml → Except String (List Finding)
  | [] => .ok []
  | it :: ts =>
    match cronItem lines it with
    | .error e => .error e
    | .ok fs =>
      match cronItems lines ts with
      | .error e => .error e
      | .ok rest => .ok (fs ++ rest)

def cronF (w : Yaml) (lines : List String) : Except String (List Finding) :=
  match getProp (getProp w "on") "schedule" with
  | .seq items => cronItems lines items
  | _ => .ok []

/-- Per-job checks.  The job line lookup builds
`new RegExp('^\\s*' + jobName + ':')` in the source; the job name is
matched literally here (faithful for names without regex
metacharacters). -/
def jobEntryF (lines : List String) (e : String × Yaml) : List Finding :=
  let jobLine := lineOf (lines.findIdx? (fun l =>
    strStarts (String.mk (l.data.dropWhile jsSpace)) (e.1 ++ ":")))
  (if !jsTruthy (getProp e.2 "runs-on") && !jsTruthy (getProp e.2 "uses") then
    [{ ruleId := "missing-runs-on", severity := .high, category := "syntax",
       line := jobLine, column := 1, msg := .missingRunsOn e.1 }]
   else [])
  ++
  (if !jsTruthy (getProp e.2 "steps") && !jsTruthy (getProp e.2 "uses") then
    [{ ruleId := "missing-steps", severity := .high, category := "syntax",
       line := jobLine, column := 1, msg := .missingSteps e.1 }]
   else [])

def jobsF (w : Yaml) (lines : List String) : List Finding :=
  if jsTruthy w then
    match jsEntries (getProp w "jobs") with
    | some es => es.flatMap (jobEntryF lines)
    | none => []
  else []

/-- All structural-validator findings, in source order; `.error` when the
cron traversal raises. -/
def structuralFindings (w : Yaml) (lines : List String) (cfg : Config) :
    Except String (List Finding) :=
  match cronF w lines with
  | .error e => .error e
  | .ok cfs =>
    .ok (missingJobsF w lines ++ eventF w lines cfg ++ permF w lines cfg
         ++ cfs ++ jobsF w lines)

/-! ## Section-scoped line scans -/

/-- A `lines.forEach` loop threading a state and appending findings, with
1-indexed line numbers. -/
def scanLines {σ : Type} (step : σ → Nat → String → σ × List Finding) :
    σ → Nat → List String → List Finding
  | _, _, [] => []
  | s, n, l :: ls =>
    let r := step s n l
    r.2 ++ scanLines step r.1 (n + 1) ls

def globHeads : List String :=
  ["branches:", "branches-ignore:", "tags:", "tags-ignore:", "paths:", "paths-ignore:"]

/-- The glob-pattern check on one list-item line inside a glob section. -/
def globItemF (line t : String) (n : Nat) : List Finding :=
  match globPat t with
  | some pat =>
    match firstEsc pat.data with
    | some tok =>
      [{ ruleId := "invalid-glob-pattern", severity := .high, category := "syntax",
         line := n, column := jsIndexOf line tok + 1, msg := .invalidGlobPattern tok }]
    | none => []
  | none => []

/-- Pass A (glob sections): state = (inGlobSection, globSectionIndent). -/
def globStep (s : Bool × Int) (n : Nat) (line : String) : (Bool × Int) × List Finding :=
  let t := jsTrim line
  let ind := jsIndent line
  if globHeads.contains t then ((true, ind), [])
  else
    let inG := if s.1 && decide (ind ≤ s.2) && !(t == "") && !(strStarts t "#")
                  && !(strStarts t "-") then false else s.1
    let fs := if inG && strStarts t "-" then globItemF line t n else []
    ((inG, s.2), fs)

def globFindings (lines : List String) : List Finding :=
  scanLines globStep (false, 0) 1 lines

/-- The input-name check on one line inside a with-block of action `a`. -/
def actItemF (cfg : Config) (a line t : String) (n : Nat) : List Finding :=
  match inputKeyMatch t with
  | some name =>
    match lookupAction cfg a with
    | some validInputs =>
      if !(validInputs.contains name) then
        [{ ruleId := "invalid-action-input", severity := .high, category := "syntax",
           line := n, column := jsIndexOf line name + 1,
           msg := .invalidActionInput name a validInputs }]
      else []
    | none => []
  | none => []

/-- Pass B (action inputs): state = (currentAction, inWithBlock,
withIndent).  The source also records `currentActionLine` but never reads
it; it is omitted. -/
def actStep (cfg : Config) (s : Option String × Bool × Int) (n : Nat) (line : String) :
    (Option String × Bool × Int) × List Finding :=
  let t := jsTrim line
  let ind := jsIndent line
  match usesIdMatch t with
  | some a => ((some a, false, s.2.2), [])
  | none =>
    if t == "with:" && s.1.isSome then ((s.1, true, ind), [])
    else
      let exitB := s.2.1 && decide (ind ≤ s.2.2) && !(t == "") && !(strStarts t "#")
                   && !(strStarts t "with:")
      let cur := if exitB then none else s.1
      let inW := if exitB then false else s.2.1
      let fs :=
        match cur with
        | some a => if inW && !(t == "") && !(strStarts t "#") then actItemF cfg a line t n else []
        | none => []
      ((cur, inW, s.2.2), fs)

def actFindings (cfg : Config) (lines : List String) : List Finding :=
  scanLines (actStep cfg) (none, false, 0) 1 lines

/-- The unknown-key check on one line nested under the active event `ev`. -/
def evItemF (cfg : Config) (ev line t : String) (n : Nat) : List Finding :=
  match keyMatch t with
  | some k =>
    let validKeys := (lookupEventKeys cfg ev).getD []
    if !validKeys.isEmpty && !(validKeys.contains k) then
      [{ ruleId := "unknown-event-key", severity := .high, category := "syntax",
         line := n, column := jsIndexOf line k + 1,
         msg := .unknownEventKey k ev validKeys }]
    else []
  | none => []

/-- Pass C (event-trigger keys): state = (inOnBlock, onIndent,
currentEvent). -/
def evStep (cfg : Config) (s : Bool × Int × Option String) (n : Nat) (line : String) :
    (Bool × Int × Option String) × List Finding :=
  let t := jsTrim line
  let ind := jsIndent line
  if strStarts t "on:" then ((true, ind, s.2.2), [])
  else
    let exitB := s.1 && decide (ind ≤ s.2.1) && !(t == "") && !(strStarts t "#")
    let inOn := if exitB then false else s.1
    let cur := if exitB then none else s.2.2
    if !inOn then ((inOn, s.2.1, cur), [])
    else
      match (evMatch t).filter (fun ev => (lookupEventKeys cfg ev).isSome) with
      | some ev => ((inOn, s.2.1, some ev), [])
      | none =>
        let fs :=
          match cur with
          | some ev => if !(t == "") then evItemF cfg ev line t n else []
          | none => []
        ((inOn, s.2.1, cur), fs)

def evFindings (cfg : Config) (lines : List String) : List Finding :=
  scanLines (evStep cfg) (false, 0, none) 1 lines

/-- The stateless checks as a (stateless) scan, to share line-number
machinery with the other passes. -/
def statelessStep (cfg : Config) (code : String) (_ : Unit) (n : Nat) (line : String) :
    Unit × List Finding :=
  ((), statelessLineFindings cfg code line n)

def statelessFindings (cfg : Config) (code : String) (lines : List String) : List Finding :=
  scanLines (statelessStep cfg code) () 1 lines

/-! ## Aggregator and scorer -/

def deduct : Severity → Int
  | .critical => 25
  | .high => 15
  | .medium => 10
  | .low => 5
  | .info => 0

def rawScore (fs : List Finding) : Int :=
  fs.foldl (fun s f => s - deduct f.severity) 100

/-- `score = Math.max(0, score)` after the per-finding subtractions. -/
def scoreOf (fs : List Finding) : Int :=
  max 0 (rawScore fs)

def gradeOf (s : Int) : String :=
  if s ≥ 90 then "A" else if s ≥ 80 then "B" else if s ≥ 70 then "C"
  else if s ≥ 60 then "D" else "F"

def bump (sm : Summary) : Severity → Summary
  | .critical => { sm with critical := sm.critical + 1 }
  | .high => { sm with high := sm.high + 1 }
  | .medium => { sm with medium := sm.medium + 1 }
  | .low => { sm with low := sm.low + 1 }
  | .info => { sm with info := sm.info + 1 }

def summaryOf (fs : List Finding) : Summary :=
  fs.foldl (fun sm f => bump sm f.severity) ⟨0, 0, 0, 0, 0⟩

/-! ## The lint entry point -/

def invalidYamlF (err : String) : Finding :=
  { ruleId := "invalid-yaml", severity := .critical, category := "syntax",
    line := 1, column := 1, msg := .invalidYaml err }

/-- The whole engine.  `parsed` is the outcome of the external
`YAML.parse code`; the locale only selects presentation strings and is
threaded unused; a `.error` result is a raised `TypeError` inside the
analysis (see `cronItem`). -/
def lint (parsed : Except String Yaml) (code : String) (cfg : Config)
    (_locale : Locale) : Except String LintResult :=
  let lines := splitLines code
  match parsed with
  | .error err =>
    .ok { findings := [invalidYamlF err],
          summary := ⟨1, 0, 0, 0, 0⟩, score := 0, grade := "F" }
  | .ok w =>
    match structuralFindings w lines cfg with
    | .error e => .error e
    | .ok sf =>
      let findings := sf ++ statelessFindings cfg code lines ++ globFindings lines
                      ++ actFindings cfg lines ++ evFindings cfg lines
      .ok { findings := findings, summary := summaryOf findings,
            score := scoreOf findings, grade := gradeOf (scoreOf findings) }

/-! ## Result helpers and concrete instances used by the theorems -/

/-- Unwrap a lint outcome (a sentinel result for the raised case, used
only by closed statements that also pin the outcome down). -/
def resOf (o : Except String LintResult) : LintResult :=
  match o with
  | .ok r => r
  | .error _ => { findings := [], summary := ⟨0, 0, 0, 0, 0⟩, score := -1, grade := "?" }

def isOkO (o : Except String LintResult) : Bool :=
  match o with
  | .ok _ => true
  | .error _ => false

def countRule (r : String) (fs : List Finding) : Nat :=
  fs.countP (fun f => f.ruleId == r)

def countSev (sev : Severity) (fs : List Finding) : Nat :=
  fs.countP (fun f => f.severity == sev)

def sumDeduct (fs : List Finding) : Int :=
  (fs.map (fun f => deduct f.severity)).sum

/-- The claim's reading of the unpinned-action trigger: `uses: <id>@<ref>`
with the whole ref token (the maximal non-whitespace run after `@`) equal
to one of the five mutable names.  Modelled from the claim's wording, to
be compared with the source's `unpinnedExtract`. -/
def claimedUnpinnedAt (cs : List Char) : Bool :=
  match stripLit "uses:" cs with
  | none => false
  | some r =>
    let t := r.dropWhile jsSpace
    let id := t.takeWhile refIdChar
    if id.isEmpty then false
    else
      match t.drop id.length with
      | '@' :: rest => unpinnedRefs.contains (String.mk (rest.takeWhile (fun c => !jsSpace c)))
      | _ => false

def claimedUnpinnedTest (line : String) : Bool :=
  anySuffix claimedUnpinnedAt line.data

/-- The rule ids the stateless per-line checks can emit, in check order. -/
def statelessRuleIds : List String :=
  ["expression-injection", "hardcoded-secret", "dangerous-trigger",
   "excessive-permissions", "unpinned-action", "dangerous-command",
   "unsafe-checkout", "invalid-runner"]

/-- The rule ids the structural validator can emit, in check order. -/
def structuralRuleIds : List String :=
  ["missing-jobs", "invalid-event", "invalid-permission", "invalid-permission-level",
   "invalid-cron", "missing-runs-on", "missing-steps"]

/-- A store whose event schema knows `push` with keys
`branches`/`tags`. -/
def cfg9 : Config :=
  { validRunners := [], dangerousContexts := [], secretPatterns := [],
    validPermissions := [], eventKeys := [("push", ["branches", "tags"])],
    validEvents := [], actions := [] }

/-- An empty reference data store (every dataset absent). -/
def cfgE : Config :=
  { validRunners := [], dangerousContexts := [], secretPatterns := [],
    validPermissions := [], eventKeys := [], validEvents := [], actions := [] }

/-- A small populated store used by witnesses. -/
def cfgW : Config :=
  { validRunners := ["ubuntu-latest", "macos-latest", "windows-latest"],
    dangerousContexts := [],
    secretPatterns := [{ name := "Token",
                         firstMatch := fun l => if containsStr l "ghp_x" then some "ghp_x" else none }],
    validPermissions := [], eventKeys := [("push", ["branches", "tags"])],
    validEvents := [], actions := [] }

/-- `jobs:\n  build:\non:\n  schedule:\n    - cron: '* * *'\n  push:\n
    branches:\n      - '\d'\npermissions: write-all` parsed. -/
def w6 : Yaml :=
  .map [("jobs", .map [("build", .nul)]),
        ("on", .map [("schedule", .seq [.map [("cron", .str "* * *")]]),
                     ("push", .map [("branches", .seq [.str "\\d"])])]),
        ("permissions", .str "write-all")]

def code6 : String :=
  "jobs:\n  build:\non:\n  schedule:\n    - cron: '* * *'\n  push:\n    branches:\n      - '\\d'\npermissions: write-all"

/-- `uses: actions/checkout@develop` parsed. -/
def w5 : Yaml := .map [("uses", .str "actions/checkout@develop")]

def code5 : String := "uses: actions/checkout@develop"

/-- `runs-on: ubuntu-latest` parsed. -/
def w4 : Yaml := .map [("runs-on", .str "ubuntu-latest")]

def code4 : String := "runs-on: ubuntu-latest"

/-- `on:\n  schedule:\n    - cron: 5` parsed: a truthy non-string cron. -/
def w7 : Yaml := .map [("on", .map [("schedule", .seq [.map [("cron", .num 5)]])])]

def code7 : String := "on:\n  schedule:\n    - cron: 5"

/-- `on:\n  push:\n    branch: main` parsed. -/
def w9 : Yaml := .map [("on", .map [("push", .map [("branch", .str "main")])])]

def code9 : String := "on:\n  push:\n    branch: main"

/-- `jobs:\n  - x` parsed: `jobs` is a truthy non-mapping (a sequence). -/
def w10 : Yaml := .map [("jobs", .seq [.str "x"])]

def code10 : String := "jobs:\n  - x"

/-- A clean two-line workflow used by witnesses:
`jobs:\n  b:\n    runs-on: ubuntu-latest\n    steps:\n      - uses: actions/checkout@main`. -/
def wClean : Yaml :=
  .map [("jobs", .map [("b", .map [("runs-on", .str "ubuntu-latest"),
                                   ("steps", .seq [.map [("uses", .str "actions/checkout@main")]])])])]

def codeClean : String :=
  "jobs:\n  b:\n    runs-on: ubuntu-latest\n    steps:\n      - uses: actions/checkout@main"

/-- A workflow whose last line holds a value matching `cfgW`'s secret
pattern. -/
def wSecret : Yaml :=
  .map [("jobs", .map [("b", .map [("runs-on", .str "ubuntu-latest"),
                                   ("steps", .str "x")])]),
        ("token", .str "ghp_xABC")]

def codeSecret : String :=
  "jobs:\n  b:\n    runs-on: ubuntu-latest\n    steps: x\ntoken: ghp_xABC"

/-! ## Lemmas: scorer and aggregator -/

theorem deduct_nonneg (sev : Severity) : 0 ≤ deduct sev := by
  cases sev <;> simp [deduct]

theorem sumDeduct_nil : sumDeduct [] = 0 := rfl

theorem sumDeduct_cons (f : Finding) (fs : List Finding) :
    sumDeduct (f :: fs) = deduct f.severity + sumDeduct fs := by
  simp [sumDeduct]

theorem sumDeduct_nonneg (fs : List Finding) : 0 ≤ sumDeduct fs := by
  induction fs with
  | nil => simp [sumDeduct]
  | cons f t ih =>
    rw [sumDeduct_cons]
    have := deduct_nonneg f.severity
    omega

theorem sumDeduct_append (a b : List Finding) :
    sumDeduct (a ++ b) = sumDeduct a + sumDeduct b := by
  simp [sumDeduct]

theorem rawScore_eq (fs : List Finding) : rawScore fs = 100 - sumDeduct fs := by
  have aux : ∀ (l : List Finding) (a : Int),
      l.foldl (fun s f => s - deduct f.severity) a = a - sumDeduct l := by
    intro l
    induction l with
    | nil => intro a; simp [sumDeduct]
    | cons f t ih =>
      intro a
      rw [List.foldl_cons, ih, sumDeduct_cons]
      omega
  exact aux fs 100

theorem scoreOf_nonneg (fs : List Finding) : 0 ≤ scoreOf fs :=
  le_max_left 0 (rawScore fs)

theorem scoreOf_le_100 (fs : List Finding) : scoreOf fs ≤ 100 := by
  have h1 := sumDeduct_nonneg fs
  have h2 := rawScore_eq fs
  unfold scoreOf
  omega

theorem scoreOf_snoc_le (fs : List Finding) (f : Finding) :
    scoreOf (fs ++ [f]) ≤ scoreOf fs := by
  have h1 := rawScore_eq (fs ++ [f])
  have h2 := rawScore_eq fs
  have h3 := sumDeduct_append fs [f]
  have h4 : sumDeduct [f] = deduct f.severity := by simp [sumDeduct]
  have h5 := deduct_nonneg f.severity
  unfold scoreOf
  omega

theorem countSev_cons (sev : Severity) (f : Finding) (fs : List Finding) :
    countSev sev (f :: fs) = countSev sev fs + (if f.severity = sev then 1 else 0) := by
  simp only [countSev, List.countP_cons]
  by_cases h : f.severity = sev <;> simp [h]

theorem summaryOf_eq (fs : List Finding) :
    summaryOf fs = ⟨countSev .critical fs, countSev .high fs, countSev .medium fs,
                    countSev .low fs, countSev .info fs⟩ := by
  have aux : ∀ (l : List Finding) (sm : Summary),
      l.foldl (fun sm f => bump sm f.severity) sm =
        ⟨sm.critical + countSev .critical l, sm.high + countSev .high l,
         sm.medium + countSev .medium l, sm.low + countSev .low l,
         sm.info + countSev .info l⟩ := by
    intro l
    induction l with
    | nil => intro sm; simp [countSev]
    | cons f t ih =>
      intro sm
      rw [List.foldl_cons, ih]
      cases h : f.severity <;>
        simp [bump, h, countSev_cons, Summary.mk.injEq] <;> omega
  have := aux fs ⟨0, 0, 0, 0, 0⟩
  simpa [summaryOf] using this

theorem countSev_total (fs : List Finding) :
    countSev .critical fs + countSev .high fs + countSev .medium fs
      + countSev .low fs + countSev .info fs = fs.length := by
  induction fs with
  | nil => simp [countSev]
  | cons f t ih =>
    cases h : f.severity <;> simp [countSev_cons, h, List.length_cons] <;> omega

theorem sumDeduct_formula (fs : List Finding) :
    sumDeduct fs = 25 * (countSev .critical fs : Int) + 15 * (countSev .high fs : Int)
      + 10 * (countSev .medium fs : Int) + 5 * (countSev .low fs : Int)
      + 0 * (countSev .info fs : Int) := by
  induction fs with
  | nil => simp [sumDeduct, countSev]
  | cons f t ih =>
    cases h : f.severity <;>
      simp [sumDeduct_cons, h, deduct, countSev_cons, ih] <;> ring

/-! ## Lemmas: the line-scanning combinator -/

theorem scanLines_cons {σ : Type} (step : σ → Nat → String → σ × List Finding)
    (s : σ) (n : Nat) (l : String) (ls : List String) :
    scanLines step s n (l :: ls) =
      (step s n l).2 ++ scanLines step (step s n l).1 (n + 1) ls := rfl

theorem scanLines_mem {σ : Type} {P : Finding → Prop}
    (step : σ → Nat → String → σ × List Finding)
    (h : ∀ s n l, ∀ f ∈ (step s n l).2, P f) :
    ∀ (ls : List String) (s : σ) (n : Nat), ∀ f ∈ scanLines step s n ls, P f := by
  intro ls
  induction ls with
  | nil => intro s n f hf; simp [scanLines] at hf
  | cons l t ih =>
    intro s n f hf
    rw [scanLines_cons, List.mem_append] at hf
    rcases hf with hf | hf
    · exact h _ _ _ f hf
    · exact ih _ _ f hf

theorem scanLines_line_ge {σ : Type}
    (step : σ → Nat → String → σ × List Finding)
    (hst : ∀ s n l, ∀ f ∈ (step s n l).2, f.line = n) :
    ∀ (ls : List String) (s : σ) (n : Nat), ∀ f ∈ scanLines step s n ls, n ≤ f.line := by
  intro ls
  induction ls with
  | nil => intro s n f hf; simp [scanLines] at hf
  | cons l t ih =>
    intro s n f hf
    rw [scanLines_cons, List.mem_append] at hf
    rcases hf with hf | hf
    · exact le_of_eq (hst _ _ _ f hf).symm
    · exact Nat.le_of_succ_le (ih _ (n + 1) f hf)

theorem scanLines_sorted {σ : Type}
    (step : σ → Nat → String → σ × List Finding)
    (hst : ∀ s n l, ∀ f ∈ (step s n l).2, f.line = n) :
    ∀ (ls : List String) (s : σ) (n : Nat),
      List.Pairwise (fun a b => a.line ≤ b.line) (scanLines step s n ls) := by
  intro ls
  induction ls with
  | nil => intro s n; simp [scanLines]
  | cons l t ih =>
    intro s n
    rw [scanLines_cons, List.pairwise_append]
    refine ⟨?_, ih _ (n + 1), ?_⟩
    · exact List.pairwise_of_forall_mem_list (fun a ha b hb => by
        rw [hst _ _ _ a ha, hst _ _ _ b hb])
    · intro a ha b hb
      rw [hst _ _ _ a ha]
      exact Nat.le_of_succ_le (scanLines_line_ge step hst t _ (n + 1) b hb)

theorem scanLines_unit_mem (g : Nat → String → List Finding) :
    ∀ (ls : List String) (n : Nat) (f : Finding),
      (f ∈ scanLines (fun (_ : Unit) k l => ((), g k l)) () n ls ↔
        ∃ k l, ls[k]? = some l ∧ f ∈ g (n + k) l) := by
  intro ls
  induction ls with
  | nil =>
    intro n f
    simp [scanLines]
  | cons l t ih =>
    intro n f
    rw [scanLines_cons, List.mem_append, ih]
    constructor
    · rintro (hf | ⟨k, l', hk, hf⟩)
      · exact ⟨0, l, by simp, by simpa using hf⟩
      · exact ⟨k + 1, l', by simpa using hk, by simpa [Nat.add_assoc, Nat.add_comm 1 k] using hf⟩
    · rintro ⟨k, l', hk, hf⟩
      cases k with
      | zero =>
        simp only [List.getElem?_cons_zero, Option.some.injEq] at hk
        subst hk
        exact Or.inl (by simpa using hf)
      | succ k =>
        refine Or.inr ⟨k, l', by simpa using hk, ?_⟩
        have : n + (k + 1) = n + 1 + k := by omega
        rwa [this] at hf

/-- Membership in the stateless pass, line-indexed. -/
theorem mem_statelessFindings (cfg : Config) (code : String) (lines : List String)
    (f : Finding) :
    f ∈ statelessFindings cfg code lines ↔
      ∃ k l, lines[k]? = some l ∧ f ∈ statelessLineFindings cfg code l (1 + k) :=
  scanLines_unit_mem (fun k l => statelessLineFindings cfg code l k) lines 1 f

/-! ## Lemmas: shapes of the findings each check can emit -/

theorem mem_exprInj {cfg : Config} {line : String} {n : Nat} {f : Finding}
    (hf : f ∈ exprInjFindings cfg line n) :
    f.ruleId = "expression-injection" ∧ f.severity = .critical ∧ f.line = n := by
  unfold exprInjFindings at hf
  split at hf
  · simp only [List.mem_map] at hf
    obtain ⟨ctx, -, rfl⟩ := hf
    exact ⟨rfl, rfl, rfl⟩
  · simp at hf

theorem mem_secret {cfg : Config} {line : String} {n : Nat} {f : Finding}
    (hf : f ∈ secretFindings cfg line n) :
    f.ruleId = "hardcoded-secret" ∧ f.severity = .critical ∧ f.line = n := by
  unfold secretFindings at hf
  simp only [List.mem_map] at hf
  obtain ⟨sp, -, rfl⟩ := hf
  exact ⟨rfl, rfl, rfl⟩

theorem mem_trig {line : String} {n : Nat} {f : Finding}
    (hf : f ∈ trigFindings line n) :
    f.ruleId = "dangerous-trigger" ∧ f.line = n := by
  unfold trigFindings at hf
  rw [List.mem_append] at hf
  rcases hf with hf | hf
  · split at hf
    · simp only [List.mem_singleton] at hf
      subst hf
      exact ⟨rfl, rfl⟩
    · simp at hf
  · split at hf
    · simp only [List.mem_singleton] at hf
      subst hf
      exact ⟨rfl, rfl⟩
    · simp at hf

theorem mem_excess {line : String} {n : Nat} {f : Finding}
    (hf : f ∈ excessFindings line n) :
    f.ruleId = "excessive-permissions" ∧ f.line = n := by
  unfold excessFindings at hf
  split at hf
  · simp only [List.mem_singleton] at hf
    subst hf
    exact ⟨rfl, rfl⟩
  · simp at hf

theorem mem_unpinned {line : String} {n : Nat} {f : Finding}
    (hf : f ∈ unpinnedFindings line n) :
    f.ruleId = "unpinned-action" ∧ f.severity = .high ∧ f.line = n := by
  unfold unpinnedFindings at hf
  split at hf
  · simp only [List.mem_singleton] at hf
    subst hf
    exact ⟨rfl, rfl, rfl⟩
  · simp at hf

theorem mem_dangerCmd {line : String} {n : Nat} {f : Finding}
    (hf : f ∈ dangerCmdFindings line n) :
    f.ruleId = "dangerous-command" ∧ f.line = n := by
  unfold dangerCmdFindings at hf
  split at hf
  · simp only [List.mem_singleton] at hf
    subst hf
    exact ⟨rfl, rfl⟩
  · simp at hf

theorem mem_checkout {code line : String} {n : Nat} {f : Finding}
    (hf : f ∈ checkoutFindings code line n) :
    f.ruleId = "unsafe-checkout" ∧ f.line = n := by
  unfold checkoutFindings at hf
  split at hf
  · split at hf
    · simp only [List.mem_singleton] at hf
      subst hf
      exact ⟨rfl, rfl⟩
    · simp at hf
  · simp at hf

theorem mem_runner {cfg : Config} {line : String} {n : Nat} {f : Finding}
    (hf : f ∈ runnerFindings cfg line n) :
    f.ruleId = "invalid-runner" ∧ f.severity = .medium ∧ f.line = n := by
  unfold runnerFindings at hf
  split at hf
  · split at hf
    · simp only [List.mem_singleton] at hf
      subst hf
      exact ⟨rfl, rfl, rfl⟩
    · simp at hf
  · simp at hf

theorem mem_statelessLine {cfg : Config} {code line : String} {n : Nat} {f : Finding}
    (hf : f ∈ statelessLineFindings cfg code line n) :
    f.line = n ∧ f.ruleId ∈ statelessRuleIds := by
  unfold statelessLineFindings at hf
  simp only [List.mem_append] at hf
  rcases hf with ((((((hf | hf) | hf) | hf) | hf) | hf) | hf) | hf
  · exact ⟨(mem_exprInj hf).2.2, by simp [statelessRuleIds, (mem_exprInj hf).1]⟩
  · exact ⟨(mem_secret hf).2.2, by simp [statelessRuleIds, (mem_secret hf).1]⟩
  · exact ⟨(mem_trig hf).2, by simp [statelessRuleIds, (mem_trig hf).1]⟩
  · exact ⟨(mem_excess hf).2, by simp [statelessRuleIds, (mem_excess hf).1]⟩
  · exact ⟨(mem_unpinned hf).2.2, by simp [statelessRuleIds, (mem_unpinned hf).1]⟩
  · exact ⟨(mem_dangerCmd hf).2, by simp [statelessRuleIds, (mem_dangerCmd hf).1]⟩
  · exact ⟨(mem_checkout hf).2, by simp [statelessRuleIds, (mem_checkout hf).1]⟩
  · exact ⟨(mem_runner hf).2.2, by simp [statelessRuleIds, (mem_runner hf).1]⟩

theorem mem_globItemF {line t : String} {n : Nat} {f : Finding}
    (hf : f ∈ globItemF line t n) :
    f.ruleId = "invalid-glob-pattern" ∧ f.line = n := by
  unfold globItemF at hf
  split at hf
  · split at hf
    · simp only [List.mem_singleton] at hf
      subst hf
      exact ⟨rfl, rfl⟩
    · simp at hf
  · simp at hf

theorem globStep_emit :
    ∀ (s : Bool × Int) (n : Nat) (l : String), ∀ f ∈ (globStep s n l).2,
      f.ruleId = "invalid-glob-pattern" ∧ f.line = n := by
  intro s n l f hf
  simp only [globStep] at hf
  repeat' split at hf
  all_goals first
    | exact mem_globItemF hf
    | simp_all

theorem mem_actItemF {cfg : Config} {a line t : String} {n : Nat} {f : Finding}
    (hf : f ∈ actItemF cfg a line t n) :
    f.ruleId = "invalid-action-input" ∧ f.line = n := by
  unfold actItemF at hf
  split at hf
  · split at hf
    · split at hf
      · simp only [List.mem_singleton] at hf
        subst hf
        exact ⟨rfl, rfl⟩
      · simp at hf
    · simp at hf
  · simp at hf

theorem actStep_emit (cfg : Config) :
    ∀ (s : Option String × Bool × Int) (n : Nat) (l : String),
      ∀ f ∈ (actStep cfg s n l).2,
        f.ruleId = "invalid-action-input" ∧ f.line = n := by
  intro s n l f hf
  simp only [actStep] at hf
  repeat' split at hf
  all_goals first
    | exact mem_actItemF hf
    | simp_all

theorem mem_evItemF {cfg : Config} {ev line t : String} {n : Nat} {f : Finding}
    (hf : f ∈ evItemF cfg ev line t n) :
    f.ruleId = "unknown-event-key" ∧ f.line = n := by
  simp only [evItemF] at hf
  split at hf
  · split at hf
    · simp only [List.mem_singleton] at hf
      subst hf
      exact ⟨rfl, rfl⟩
    · simp at hf
  · simp at hf

theorem evStep_emit (cfg : Config) :
    ∀ (s : Bool × Int × Option String) (n : Nat) (l : String),
      ∀ f ∈ (evStep cfg s n l).2,
        f.ruleId = "unknown-event-key" ∧ f.line = n := by
  intro s n l f hf
  simp only [evStep] at hf
  repeat' split at hf
  all_goals first
    | exact mem_evItemF hf
    | simp_all

/-! ## Lemmas: structural validator shapes -/

theorem mem_missingJobsF {w : Yaml} {lines : List String} {f : Finding}
    (hf : f ∈ missingJobsF w lines) :
    f.ruleId = "missing-jobs" ∧ (jsTruthy w && jsTruthy (getProp w "jobs")) = false := by
  unfold missingJobsF at hf
  split at hf
  · simp only [List.mem_singleton] at hf
    subst hf
    rename_i hc
    refine ⟨rfl, ?_⟩
    revert hc
    cases jsTruthy w <;> cases jsTruthy (getProp w "jobs") <;> simp
  · simp at hf

theorem mem_eventF {w : Yaml} {lines : List String} {cfg : Config} {f : Finding}
    (hf : f ∈ eventF w lines cfg) : f.ruleId = "invalid-event" := by
  unfold eventF at hf
  split at hf
  · simp only [List.mem_filterMap] at hf
    obtain ⟨ev, -, hev⟩ := hf
    split at hev
    · simp only [Option.some.injEq] at hev
      subst hev
      rfl
    · simp at hev
  · simp at hf

theorem mem_permEntryF {lines : List String} {cfg : Config} {e : String × Yaml} {f : Finding}
    (hf : f ∈ permEntryF lines cfg e) :
    f.ruleId = "invalid-permission" ∨ f.ruleId = "invalid-permission-level" := by
  unfold permEntryF at hf
  rw [List.mem_append] at hf
  rcases hf with hf | hf
  · split at hf
    · simp only [List.mem_singleton] at hf
      subst hf
      exact Or.inl rfl
    · simp at hf
  · repeat' split at hf
    all_goals first
      | (simp only [List.mem_singleton] at hf; subst hf; exact Or.inr rfl)
      | simp_all

theorem mem_permF {w : Yaml} {lines : List String} {cfg : Config} {f : Finding}
    (hf : f ∈ permF w lines cfg) :
    f.ruleId = "invalid-permission" ∨ f.ruleId = "invalid-permission-level" := by
  unfold permF at hf
  split at hf
  · simp only [List.mem_flatMap] at hf
    obtain ⟨e, -, he⟩ := hf
    exact mem_permEntryF he
  · simp at hf

theorem mem_cronItem {lines : List String} {item : Yaml} {fs : List Finding} {f : Finding}
    (h : cronItem lines item = .ok fs) (hf : f ∈ fs) : f.ruleId = "invalid-cron" := by
  simp only [cronItem] at h
  split at h
  · split at h
    · simp only [Except.ok.injEq] at h
      subst h
      split at hf
      · simp only [List.mem_singleton] at hf
        subst hf
        rfl
      · simp at hf
    · simp at h
  · simp only [Except.ok.injEq] at h
    subst h
    simp at hf

theorem mem_cronItems {lines : List String} {items : List Yaml} {fs : List Finding}
    {f : Finding} (h : cronItems lines items = .ok fs) (hf : f ∈ fs) :
    f.ruleId = "invalid-cron" := by
  induction items generalizing fs with
  | nil =>
    simp only [cronItems, Except.ok.injEq] at h
    subst h
    simp at hf
  | cons it ts ih =>
    simp only [cronItems] at h
    cases h1 : cronItem lines it with
    | error e => rw [h1] at h; simp at h
    | ok a =>
      rw [h1] at h
      cases h2 : cronItems lines ts with
      | error e => rw [h2] at h; simp at h
      | ok b =>
        rw [h2] at h
        simp only [Except.ok.injEq] at h
        subst h
        rw [List.mem_append] at hf
        rcases hf with hf | hf
        · exact mem_cronItem h1 hf
        · exact ih h2 hf

theorem mem_cronF {w : Yaml} {lines : List String} {fs : List Finding} {f : Finding}
    (h : cronF w lines = .ok fs) (hf : f ∈ fs) : f.ruleId = "invalid-cron" := by
  unfold cronF at h
  split at h
  · exact mem_cronItems h hf
  · simp only [Except.ok.injEq] at h
    subst h
    simp at hf

theorem mem_jobEntryF {lines : List String} {e : String × Yaml} {f : Finding}
    (hf : f ∈ jobEntryF lines e) :
    f.ruleId = "missing-runs-on" ∨ f.ruleId = "missing-steps" := by
  simp only [jobEntryF] at hf
  rw [List.mem_append] at hf
  rcases hf with hf | hf
  · split at hf
    · simp only [List.mem_singleton] at hf
      subst hf
      exact Or.inl rfl
    · simp at hf
  · split at hf
    · simp only [List.mem_singleton] at hf
      subst hf
      exact Or.inr rfl
    · simp at hf

theorem mem_jobsF {w : Yaml} {lines : List String} {f : Finding}
    (hf : f ∈ jobsF w lines) :
    (f.ruleId = "missing-runs-on" ∨ f.ruleId = "missing-steps")
      ∧ jsTruthy w = true ∧ isObjY (getProp w "jobs") = true := by
  unfold jobsF at hf
  split at hf
  · rename_i hw
    split at hf
    · rename_i es he
      simp only [List.mem_flatMap] at hf
      obtain ⟨e, -, hef⟩ := hf
      refine ⟨mem_jobEntryF hef, hw, ?_⟩
      cases hj : getProp w "jobs" <;> rw [hj] at he <;> simp [jsEntries] at he <;> simp [isObjY]
    · simp at hf
  · simp at hf

theorem mem_structural {w : Yaml} {lines : List String} {cfg : Config}
    {fs : List Finding} {f : Finding}
    (h : structuralFindings w lines cfg = .ok fs) (hf : f ∈ fs) :
    f.ruleId ∈ structuralRuleIds := by
  unfold structuralFindings at h
  cases hc : cronF w lines with
  | error e => rw [hc] at h; simp at h
  | ok cfs =>
    rw [hc] at h
    simp only [Except.ok.injEq] at h
    subst h
    simp only [List.mem_append] at hf
    rcases hf with (((hf | hf) | hf) | hf) | hf
    · simp [structuralRuleIds, (mem_missingJobsF hf).1]
    · simp [structuralRuleIds, mem_eventF hf]
    · rcases mem_permF hf with h | h <;> simp [structuralRuleIds, h]
    · simp [structuralRuleIds, mem_cronF hc hf]
    · rcases (mem_jobsF hf).1 with h | h <;> simp [structuralRuleIds, h]

/-! ## Lemmas: decomposition of a successful lint run -/

theorem lint_ok_elim {w : Yaml} {code : String} {cfg : Config} {loc : Locale}
    {res : LintResult} (h : lint (.ok w) code cfg loc = .ok res) :
    ∃ sf, structuralFindings w (splitLines code) cfg = .ok sf ∧
      res.findings = sf ++ statelessFindings cfg code (splitLines code)
        ++ globFindings (splitLines code) ++ actFindings cfg (splitLines code)
        ++ evFindings cfg (splitLines code) ∧
      res.summary = summaryOf res.findings ∧
      res.score = scoreOf res.findings ∧
      res.grade = gradeOf (scoreOf res.findings) := by
  simp only [lint] at h
  cases hs : structuralFindings w (splitLines code) cfg with
  | error e => rw [hs] at h; simp at h
  | ok sf =>
    rw [hs] at h
    simp only [Except.ok.injEq] at h
    subst h
    exact ⟨sf, rfl, by simp [List.append_assoc], rfl, rfl, rfl⟩

/-! ## Claim C1 -/

/-- C1: for every input text that fails YAML parsing, `lint` returns a
result whose findings list is exactly one finding with ruleId
`invalid-yaml`, severity critical, category syntax, line 1, summary
`{critical := 1, high := 0, medium := 0, low := 0, info := 0}`, score 0
and grade "F" — and nothing of any other analysis pass, since the result
carries nothing else. -/
theorem claim1_parse_failure_result :
    ∀ (err code : String) (cfg : Config) (loc : Locale),
      lint (.error err) code cfg loc = .ok
        { findings := [{ ruleId := "invalid-yaml", severity := .critical,
                         category := "syntax", line := 1, column := 1,
                         msg := .invalidYaml err }],
          summary := ⟨1, 0, 0, 0, 0⟩, score := 0, grade := "F" } := by
  intro err code cfg loc
  rfl

/-! ## Claim C2 -/

/-- C2, counterexample: the claim quantifies over every input text, but
for a text that fails parsing the engine returns the hardcoded score 0
while its findings list holds exactly one critical finding, for which the
claimed formula gives 100 − 25 = 75. -/
theorem claim2_counterexample :
    lint (Except.error "bad") "on:" cfgE Locale.en = Except.ok
      { findings := [invalidYamlF "bad"], summary := ⟨1, 0, 0, 0, 0⟩,
        score := 0, grade := "F" } ∧
    max 0 (100 - (25 * (countSev .critical [invalidYamlF "bad"] : Int)
      + 15 * (countSev .high [invalidYamlF "bad"] : Int)
      + 10 * (countSev .medium [invalidYamlF "bad"] : Int)
      + 5 * (countSev .low [invalidYamlF "bad"] : Int))) = 75 ∧
    (0 : Int) ≠ 75 :=
  ⟨rfl, by decide, by decide⟩

/-- C2 amended: for every input text that parses successfully and for
which the analysis completes, the returned score is 100 minus 25 per
critical finding, 15 per high, 10 per medium, 5 per low and 0 per info —
every occurrence counted, no per-rule deduplication — clamped to
[0, 100], and the grade follows the 90/80/70/60 thresholds.  (On parse
failure the score is hardcoded to 0 instead, see the counterexample and
C1.) -/
theorem claim2_score_formula :
    ∀ (w : Yaml) (code : String) (cfg : Config) (loc : Locale) (res : LintResult),
      lint (.ok w) code cfg loc = .ok res →
        res.score = max 0 (min 100 (100 - (25 * (countSev .critical res.findings : Int)
          + 15 * (countSev .high res.findings : Int)
          + 10 * (countSev .medium res.findings : Int)
          + 5 * (countSev .low res.findings : Int)
          + 0 * (countSev .info res.findings : Int)))) ∧
        res.grade = (if res.score ≥ 90 then "A" else if res.score ≥ 80 then "B"
          else if res.score ≥ 70 then "C" else if res.score ≥ 60 then "D" else "F") := by
  intro w code cfg loc res h
  obtain ⟨sf, -, -, -, hscore, hgrade⟩ := lint_ok_elim h
  constructor
  · rw [hscore]
    unfold scoreOf
    rw [rawScore_eq, sumDeduct_formula]
    have := sumDeduct_nonneg res.findings
    rw [sumDeduct_formula] at this
    omega
  · rw [hgrade, hscore]
    rfl

/-- C2 witness: a one-line document with no findings scores 100, grade
"A", matching the amended formula. -/
theorem claim2_witness :
    (100 : Int) = max 0 (min 100 (100 - (25 * (countSev .critical ([] : List Finding) : Int)
      + 15 * (countSev .high ([] : List Finding) : Int)
      + 10 * (countSev .medium ([] : List Finding) : Int)
      + 5 * (countSev .low ([] : List Finding) : Int)
      + 0 * (countSev .info ([] : List Finding) : Int)))) ∧
    "A" = (if (100 : Int) ≥ 90 then "A" else if (100 : Int) ≥ 80 then "B"
      else if (100 : Int) ≥ 70 then "C" else if (100 : Int) ≥ 60 then "D" else "F") :=
  claim2_score_formula (.map [("jobs", .str "x")]) "jobs: x" cfgE .en
    { findings := [], summary := ⟨0, 0, 0, 0, 0⟩, score := 100, grade := "A" } rfl

/-! ## Claim C3 -/

/-- C3: every returned score lies in [0, 100]; the scoring function is
non-increasing under adding a finding; the summary counts partition the
findings exactly (each severity count is the number of findings of that
severity, and the five counts sum to the number of findings). -/
theorem claim3_invariants :
    (∀ (parsed : Except String Yaml) (code : String) (cfg : Config) (loc : Locale)
       (res : LintResult),
      lint parsed code cfg loc = .ok res →
        0 ≤ res.score ∧ res.score ≤ 100 ∧
        res.summary.critical = countSev .critical res.findings ∧
        res.summary.high = countSev .high res.findings ∧
        res.summary.medium = countSev .medium res.findings ∧
        res.summary.low = countSev .low res.findings ∧
        res.summary.info = countSev .info res.findings ∧
        res.summary.critical + res.summary.high + res.summary.medium
          + res.summary.low + res.summary.info = res.findings.length) ∧
    (∀ (fs : List Finding) (f : Finding), scoreOf (fs ++ [f]) ≤ scoreOf fs) := by
  constructor
  · intro parsed code cfg loc res h
    cases parsed with
    | error err =>
      simp only [lint, Except.ok.injEq] at h
      subst h
      refine ⟨by simp, by simp, ?_, ?_, ?_, ?_, ?_, ?_⟩ <;> simp [countSev, invalidYamlF]
    | ok w =>
      obtain ⟨sf, -, -, hsum, hscore, -⟩ := lint_ok_elim h
      rw [hscore, hsum, summaryOf_eq]
      refine ⟨scoreOf_nonneg _, scoreOf_le_100 _, rfl, rfl, rfl, rfl, rfl, ?_⟩
      exact countSev_total res.findings
  · exact scoreOf_snoc_le

/-- C3 witness: instantiated at a parse-failure input and at a concrete
finding append. -/
theorem claim3_witness :
    (0 ≤ (0 : Int) ∧ (0 : Int) ≤ 100 ∧
      (1 = countSev .critical [invalidYamlF "e"]) ∧
      (0 = countSev .high [invalidYamlF "e"]) ∧
      (0 = countSev .medium [invalidYamlF "e"]) ∧
      (0 = countSev .low [invalidYamlF "e"]) ∧
      (0 = countSev .info [invalidYamlF "e"]) ∧
      1 + 0 + 0 + 0 + 0 = [invalidYamlF "e"].length) ∧
    scoreOf ([] ++ [invalidYamlF "e"]) ≤ scoreOf [] :=
  ⟨by
    have := claim3_invariants.1 (.error "e") "x" cfgE .en
      { findings := [invalidYamlF "e"], summary := ⟨1, 0, 0, 0, 0⟩,
        score := 0, grade := "F" } rfl
    simpa using this,
   claim3_invariants.2 [] (invalidYamlF "e")⟩

/-! ## Per-pass membership corollaries -/

theorem mem_globFindings {lines : List String} {f : Finding}
    (hf : f ∈ globFindings lines) : f.ruleId = "invalid-glob-pattern" :=
  scanLines_mem globStep (fun s n l g hg => (globStep_emit s n l g hg).1) lines _ _ f hf

theorem mem_actFindings {cfg : Config} {lines : List String} {f : Finding}
    (hf : f ∈ actFindings cfg lines) : f.ruleId = "invalid-action-input" :=
  scanLines_mem (actStep cfg) (fun s n l g hg => (actStep_emit cfg s n l g hg).1) lines _ _ f hf

theorem mem_evFindings {cfg : Config} {lines : List String} {f : Finding}
    (hf : f ∈ evFindings cfg lines) : f.ruleId = "unknown-event-key" :=
  scanLines_mem (evStep cfg) (fun s n l g hg => (evStep_emit cfg s n l g hg).1) lines _ _ f hf

theorem mem_statelessF {cfg : Config} {code : String} {lines : List String} {f : Finding}
    (hf : f ∈ statelessFindings cfg code lines) : f.ruleId ∈ statelessRuleIds :=
  scanLines_mem (statelessStep cfg code)
    (fun _ _ _ g hg => (mem_statelessLine (f := g) hg).2) lines _ _ f hf

/-- Structural findings, split by the component that can have produced
them. -/
theorem mem_structural_cases {w : Yaml} {lines : List String} {cfg : Config}
    {fs : List Finding} {f : Finding}
    (h : structuralFindings w lines cfg = .ok fs) (hf : f ∈ fs) :
    f ∈ missingJobsF w lines ∨ f ∈ jobsF w lines ∨
      (f.ruleId ≠ "missing-jobs" ∧ f.ruleId ≠ "missing-runs-on" ∧ f.ruleId ≠ "missing-steps") := by
  unfold structuralFindings at h
  cases hc : cronF w lines with
  | error e => rw [hc] at h; simp at h
  | ok cfs =>
    rw [hc] at h
    simp only [Except.ok.injEq] at h
    subst h
    simp only [List.mem_append] at hf
    rcases hf with (((hf | hf) | hf) | hf) | hf
    · exact Or.inl hf
    · refine Or.inr (Or.inr ?_)
      rw [mem_eventF hf]
      refine ⟨by decide, by decide, by decide⟩
    · refine Or.inr (Or.inr ?_)
      rcases mem_permF hf with h | h <;> rw [h] <;> exact ⟨by decide, by decide, by decide⟩
    · refine Or.inr (Or.inr ?_)
      rw [mem_cronF hc hf]
      exact ⟨by decide, by decide, by decide⟩
    · exact Or.inr (Or.inl hf)

theorem getProp_truthy_w {w : Yaml} {k : String}
    (h : jsTruthy (getProp w k) = true) : jsTruthy w = true := by
  cases w <;> simp [getProp, jsTruthy] at h ⊢

/-! ## Claim C7 -/

/-- C7 (falsified by the code): `on:\n  schedule:\n    - cron: 5` parses
successfully (to `w7`), but the cron traversal calls `.trim()` on the
number 5 and raises instead of returning a LintResult. -/
theorem claim7_cron_crash :
    lint (.ok w7) code7 cfgE .en =
      .error "TypeError: scheduleItem.cron.trim is not a function" := rfl

/-! ## Claim C10 -/

/-- C10, counterexample: `jobs:\n  - x` has a truthy, non-mapping `jobs`
(a sequence), yet the per-job checks run over the array entries and emit
`missing-runs-on` and `missing-steps` for job "0". -/
theorem claim10_counterexample :
    jsTruthy (getProp w10 "jobs") = true ∧
    isMapY (getProp w10 "jobs") = false ∧
    lint (.ok w10) code10 cfgE .en = .ok
      { findings := [{ ruleId := "missing-runs-on", severity := .high, category := "syntax",
                       line := 1, column := 1, msg := .missingRunsOn "0" },
                     { ruleId := "missing-steps", severity := .high, category := "syntax",
                       line := 1, column := 1, msg := .missingSteps "0" }],
        summary := ⟨0, 2, 0, 0, 0⟩, score := 70, grade := "C" } ∧
    countRule "missing-runs-on" (resOf (lint (.ok w10) code10 cfgE .en)).findings = 1 :=
  ⟨by decide, by decide, rfl, by decide⟩

/-- C10 amended: when `jobs` parses to a truthy value that is not a JS
object (not a mapping and not a sequence — e.g. a string or number),
lint emits no missing-jobs and no per-job findings; and in general
missing-jobs fires only when `jobs` is absent/falsy (or the document
itself is falsy), while the per-job checks fire only when `jobs` is an
object (mapping or sequence — the code's `typeof === 'object'`). -/
theorem claim10_scalar_jobs :
    ∀ (w : Yaml) (code : String) (cfg : Config) (loc : Locale) (res : LintResult),
      lint (.ok w) code cfg loc = .ok res →
      ((jsTruthy (getProp w "jobs") = true → isObjY (getProp w "jobs") = false →
        ∀ f ∈ res.findings,
          f.ruleId ≠ "missing-jobs" ∧ f.ruleId ≠ "missing-runs-on" ∧ f.ruleId ≠ "missing-steps") ∧
       (∀ f ∈ res.findings,
         (f.ruleId = "missing-jobs" → (jsTruthy w && jsTruthy (getProp w "jobs")) = false) ∧
         (f.ruleId = "missing-runs-on" ∨ f.ruleId = "missing-steps" →
           jsTruthy w = true ∧ isObjY (getProp w "jobs") = true))) := by
  intro w code cfg loc res h
  obtain ⟨sf, hsf, hfind, -, -, -⟩ := lint_ok_elim h
  have hcases : ∀ f ∈ res.findings,
      f ∈ missingJobsF w (splitLines code) ∨ f ∈ jobsF w (splitLines code) ∨
        (f.ruleId ≠ "missing-jobs" ∧ f.ruleId ≠ "missing-runs-on" ∧ f.ruleId ≠ "missing-steps") := by
    intro f hf
    rw [hfind] at hf
    simp only [List.mem_append] at hf
    rcases hf with (((hf | hf) | hf) | hf) | hf
    · exact mem_structural_cases hsf hf
    · refine Or.inr (Or.inr ?_)
      have := mem_statelessF hf
      simp only [statelessRuleIds, List.mem_cons, List.mem_singleton,
        List.not_mem_nil, or_false] at this
      rcases this with h | h | h | h | h | h | h | h <;> rw [h] <;>
        exact ⟨by decide, by decide, by decide⟩
    · refine Or.inr (Or.inr ?_)
      rw [mem_globFindings hf]
      exact ⟨by decide, by decide, by decide⟩
    · refine Or.inr (Or.inr ?_)
      rw [mem_actFindings hf]
      exact ⟨by decide, by decide, by decide⟩
    · refine Or.inr (Or.inr ?_)
      rw [mem_evFindings hf]
      exact ⟨by decide, by decide, by decide⟩
  constructor
  · intro htr hobj f hf
    rcases hcases f hf with hm | hj | hn
    · have := (mem_missingJobsF hm).2
      rw [getProp_truthy_w htr, htr] at this
      simp at this
    · have := (mem_jobsF hj).2.2
      rw [hobj] at this
      simp at this
    · exact hn
  · intro f hf
    rcases hcases f hf with hm | hj | hn
    · exact ⟨fun _ => (mem_missingJobsF hm).2,
             fun hid => by
               rcases hid with hid | hid <;> rw [(mem_missingJobsF hm).1] at hid <;> simp at hid⟩
    · refine ⟨fun hid => ?_, fun _ => (mem_jobsF hj).2⟩
      rcases (mem_jobsF hj).1 with h' | h' <;> rw [h'] at hid <;> simp at hid
    · exact ⟨fun hid => absurd hid hn.1,
             fun hid => by
               rcases hid with hid | hid
               · exact absurd hid hn.2.1
               · exact absurd hid hn.2.2⟩

/-- C10 witness: a truthy scalar `jobs` ("x") produces an analysis with
no missing-jobs and no per-job findings. -/
theorem claim10_witness :
    ((jsTruthy (getProp (Yaml.map [("jobs", .str "x")]) "jobs") = true →
      isObjY (getProp (Yaml.map [("jobs", .str "x")]) "jobs") = false →
      ∀ f ∈ (LintResult.mk [] ⟨0, 0, 0, 0, 0⟩ 100 "A").findings,
        f.ruleId ≠ "missing-jobs" ∧ f.ruleId ≠ "missing-runs-on" ∧ f.ruleId ≠ "missing-steps") ∧
     (∀ f ∈ (LintResult.mk [] ⟨0, 0, 0, 0, 0⟩ 100 "A").findings,
       (f.ruleId = "missing-jobs" →
         (jsTruthy (Yaml.map [("jobs", .str "x")]) &&
          jsTruthy (getProp (Yaml.map [("jobs", .str "x")]) "jobs")) = false) ∧
       (f.ruleId = "missing-runs-on" ∨ f.ruleId = "missing-steps" →
         jsTruthy (Yaml.map [("jobs", .str "x")]) = true ∧
         isObjY (getProp (Yaml.map [("jobs", .str "x")]) "jobs") = true))) :=
  claim10_scalar_jobs (.map [("jobs", .str "x")]) "jobs: x" cfgE .en
    (LintResult.mk [] ⟨0, 0, 0, 0, 0⟩ 100 "A") rfl

/-! ## Locating a stateless rule's findings inside a lint run -/

/-- A finding whose ruleId only the stateless pass can produce lies in
the result exactly when it lies in the stateless pass. -/
theorem lint_rule_to_stateless {w : Yaml} {code : String} {cfg : Config} {loc : Locale}
    {res : LintResult} {R : String}
    (h : lint (.ok w) code cfg loc = .ok res)
    (hR2 : R ∉ structuralRuleIds) (hR3 : R ≠ "invalid-glob-pattern")
    (hR4 : R ≠ "invalid-action-input") (hR5 : R ≠ "unknown-event-key")
    (f : Finding) :
    (f ∈ res.findings ∧ f.ruleId = R) ↔
      (f ∈ statelessFindings cfg code (splitLines code) ∧ f.ruleId = R) := by
  obtain ⟨sf, hsf, hfind, -, -, -⟩ := lint_ok_elim h
  constructor
  · rintro ⟨hf, hid⟩
    rw [hfind] at hf
    simp only [List.mem_append] at hf
    rcases hf with (((hf | hf) | hf) | hf) | hf
    · exact absurd (hid ▸ mem_structural hsf hf) hR2
    · exact ⟨hf, hid⟩
    · exact absurd (hid ▸ mem_globFindings hf) hR3
    · exact absurd (hid ▸ mem_actFindings hf) hR4
    · exact absurd (hid ▸ mem_evFindings hf) hR5
  · rintro ⟨hf, hid⟩
    refine ⟨?_, hid⟩
    rw [hfind]
    simp only [List.mem_append]
    tauto

/-- Stateless findings at a given document line, for a property `Q`. -/
theorem exists_stateless_at_line (cfg : Config) (code : String) (lines : List String)
    (i : Nat) (line : String) (hl : lines[i]? = some line) (Q : Finding → Prop) :
    (∃ f, (f ∈ statelessFindings cfg code lines ∧ Q f) ∧ f.line = i + 1) ↔
      (∃ f, f ∈ statelessLineFindings cfg code line (i + 1) ∧ Q f) := by
  constructor
  · rintro ⟨f, ⟨hf, hq⟩, hline⟩
    rw [mem_statelessFindings] at hf
    obtain ⟨k, l', hk, hf⟩ := hf
    have hstamp := (mem_statelessLine hf).1
    have hki : k = i := by omega
    subst hki
    rw [hl] at hk
    simp only [Option.some.injEq] at hk
    subst hk
    have : 1 + k = k + 1 := by omega
    rw [this] at hf
    exact ⟨f, hf, hq⟩
  · rintro ⟨f, hf, hq⟩
    have hstamp := (mem_statelessLine hf).1
    refine ⟨f, ⟨?_, hq⟩, hstamp⟩
    rw [mem_statelessFindings]
    refine ⟨i, line, hl, ?_⟩
    have : 1 + i = i + 1 := by omega
    rwa [this]

/-- Inside one stateless line scan, the invalid-runner findings are
exactly the `runnerFindings`. -/
theorem stateless_line_runner {cfg : Config} {code line : String} {n : Nat} {f : Finding} :
    (f ∈ statelessLineFindings cfg code line n ∧ f.ruleId = "invalid-runner") ↔
      f ∈ runnerFindings cfg line n := by
  constructor
  · rintro ⟨hf, hid⟩
    unfold statelessLineFindings at hf
    simp only [List.mem_append] at hf
    rcases hf with ((((((hf | hf) | hf) | hf) | hf) | hf) | hf) | hf
    · exact absurd ((mem_exprInj hf).1.symm.trans hid) (by decide)
    · exact absurd ((mem_secret hf).1.symm.trans hid) (by decide)
    · exact absurd ((mem_trig hf).1.symm.trans hid) (by decide)
    · exact absurd ((mem_excess hf).1.symm.trans hid) (by decide)
    · exact absurd ((mem_unpinned hf).1.symm.trans hid) (by decide)
    · exact absurd ((mem_dangerCmd hf).1.symm.trans hid) (by decide)
    · exact absurd ((mem_checkout hf).1.symm.trans hid) (by decide)
    · exact hf
  · intro hf
    refine ⟨?_, (mem_runner hf).1⟩
    unfold statelessLineFindings
    simp only [List.mem_append]
    tauto

/-- Inside one stateless line scan, the unpinned-action findings are
exactly the `unpinnedFindings`. -/
theorem stateless_line_unpinned {cfg : Config} {code line : String} {n : Nat} {f : Finding} :
    (f ∈ statelessLineFindings cfg code line n ∧ f.ruleId = "unpinned-action") ↔
      f ∈ unpinnedFindings line n := by
  constructor
  · rintro ⟨hf, hid⟩
    unfold statelessLineFindings at hf
    simp only [List.mem_append] at hf
    rcases hf with ((((((hf | hf) | hf) | hf) | hf) | hf) | hf) | hf
    · exact absurd ((mem_exprInj hf).1.symm.trans hid) (by decide)
    · exact absurd ((mem_secret hf).1.symm.trans hid) (by decide)
    · exact absurd ((mem_trig hf).1.symm.trans hid) (by decide)
    · exact absurd ((mem_excess hf).1.symm.trans hid) (by decide)
    · exact hf
    · exact absurd ((mem_dangerCmd hf).1.symm.trans hid) (by decide)
    · exact absurd ((mem_checkout hf).1.symm.trans hid) (by decide)
    · exact absurd ((mem_runner hf).1.symm.trans hid) (by decide)
  · intro hf
    refine ⟨?_, (mem_unpinned hf).1⟩
    unfold statelessLineFindings
    simp only [List.mem_append]
    tauto

/-- Inside one stateless line scan, the hardcoded-secret findings are
exactly the `secretFindings`. -/
theorem stateless_line_secret {cfg : Config} {code line : String} {n : Nat} {f : Finding} :
    (f ∈ statelessLineFindings cfg code line n ∧ f.ruleId = "hardcoded-secret") ↔
      f ∈ secretFindings cfg line n := by
  constructor
  · rintro ⟨hf, hid⟩
    unfold statelessLineFindings at hf
    simp only [List.mem_append] at hf
    rcases hf with ((((((hf | hf) | hf) | hf) | hf) | hf) | hf) | hf
    · exact absurd ((mem_exprInj hf).1.symm.trans hid) (by decide)
    · exact hf
    · exact absurd ((mem_trig hf).1.symm.trans hid) (by decide)
    · exact absurd ((mem_excess hf).1.symm.trans hid) (by decide)
    · exact absurd ((mem_unpinned hf).1.symm.trans hid) (by decide)
    · exact absurd ((mem_dangerCmd hf).1.symm.trans hid) (by decide)
    · exact absurd ((mem_checkout hf).1.symm.trans hid) (by decide)
    · exact absurd ((mem_runner hf).1.symm.trans hid) (by decide)
  · intro hf
    refine ⟨?_, (mem_secret hf).1⟩
    unfold statelessLineFindings
    simp only [List.mem_append]
    tauto

/-- Shape of an invalid-runner finding. -/
theorem mem_runnerFindings_iff (cfg : Config) (line : String) (n : Nat) (f : Finding) :
    f ∈ runnerFindings cfg line n ↔
      ∃ v, runsOnExtract line = some v ∧ containsStr v "$\x7b\x7b" = false ∧
        cfg.validRunners.contains v = false ∧ containsStr v "matrix." = false ∧
        f = { ruleId := "invalid-runner", severity := .medium, category := "syntax",
              line := n, column := jsIndexOf line v + 1, msg := .invalidRunner v } := by
  unfold runnerFindings
  cases hv : runsOnExtract line with
  | none => simp
  | some v =>
    dsimp only
    by_cases hc : (!(containsStr v "$\x7b\x7b") && !(cfg.validRunners.contains v)
        && !(containsStr v "matrix.")) = true
    · rw [if_pos hc]
      simp only [List.mem_singleton]
      simp only [Bool.and_eq_true, Bool.not_eq_true'] at hc
      constructor
      · intro hef
        exact ⟨v, rfl, hc.1.1, hc.1.2, hc.2, hef⟩
      · rintro ⟨v', hv', -, -, -, hef⟩
        simp only [Option.some.injEq] at hv'
        subst hv'
        exact hef
    · rw [if_neg hc]
      simp only [List.not_mem_nil, false_iff]
      rintro ⟨v', hv', h1, h2, h3, -⟩
      simp only [Option.some.injEq] at hv'
      subst hv'
      simp [h1, h2, h3] at hc
      exact absurd hc (by simpa using h2)

/-! ## Claim C4 -/

/-- C4, counterexample: the runner check has no empty-catalog guard.
With an empty RunnerCatalog (all datasets absent), `runs-on:
ubuntu-latest` still yields an invalid-runner finding — the claim says
none is ever emitted then. -/
theorem claim4_counterexample :
    cfgE.validRunners = [] ∧
    lint (.ok w4) code4 cfgE .en = .ok
      { findings := [{ ruleId := "missing-jobs", severity := .high, category := "syntax",
                       line := 1, column := 1, msg := .missingJobs },
                     { ruleId := "invalid-runner", severity := .medium, category := "syntax",
                       line := 1, column := 10, msg := .invalidRunner "ubuntu-latest" }],
        summary := ⟨0, 1, 1, 0, 0⟩, score := 75, grade := "C" } ∧
    countRule "invalid-runner" (resOf (lint (.ok w4) code4 cfgE .en)).findings = 1 :=
  ⟨rfl, rfl, by decide⟩

/-- C4 amended: an invalid-runner (medium) finding is emitted for a line
exactly when the line matches `runs-on: <value>` and the normalized value
(quotes stripped, `#`-suffix dropped, trimmed) is not a template
expression, not a `matrix.*` reference, and absent from the
RunnerCatalog.  An empty catalog does NOT skip the check: membership in
the empty list is false, so every matching non-template, non-matrix value
is flagged. -/
theorem claim4_runner_iff :
    ∀ (w : Yaml) (code : String) (cfg : Config) (loc : Locale) (res : LintResult)
      (i : Nat) (line : String),
      lint (.ok w) code cfg loc = .ok res →
      (splitLines code)[i]? = some line →
      ((∃ f ∈ res.findings, f.ruleId = "invalid-runner" ∧ f.severity = Severity.medium
          ∧ f.line = i + 1) ↔
        (∃ v, runsOnExtract line = some v ∧ containsStr v "$\x7b\x7b" = false ∧
          cfg.validRunners.contains v = false ∧ containsStr v "matrix." = false)) := by
  intro w code cfg loc res i line h hl
  constructor
  · rintro ⟨f, hf, hid, hsev, hline⟩
    have hstl := (lint_rule_to_stateless h (by decide) (by decide) (by decide)
      (by decide) f).mp ⟨hf, hid⟩
    have hx := (exists_stateless_at_line cfg code (splitLines code) i line hl
      (fun f => f.ruleId = "invalid-runner")).mp ⟨f, ⟨hstl.1, hstl.2⟩, hline⟩
    obtain ⟨g, hg, hgid⟩ := hx
    have hrun := stateless_line_runner.mp ⟨hg, hgid⟩
    obtain ⟨v, hv, h1, h2, h3, -⟩ := (mem_runnerFindings_iff _ _ _ g).mp hrun
    exact ⟨v, hv, h1, h2, h3⟩
  · rintro ⟨v, hv, h1, h2, h3⟩
    have hg : { ruleId := "invalid-runner", severity := Severity.medium,
                category := "syntax", line := i + 1,
                column := jsIndexOf line v + 1,
                msg := Msg.invalidRunner v : Finding } ∈ runnerFindings cfg line (i + 1) :=
      (mem_runnerFindings_iff _ _ _ _).mpr ⟨v, hv, h1, h2, h3, rfl⟩
    have hslf := (@stateless_line_runner cfg code line (i + 1) _).mpr hg
    have hx := (exists_stateless_at_line cfg code (splitLines code) i line hl
      (fun f => f.ruleId = "invalid-runner")).mpr ⟨_, hslf.1, hslf.2⟩
    obtain ⟨f, ⟨hfs, hfq⟩, hfl⟩ := hx
    have hres := (lint_rule_to_stateless h (by decide) (by decide) (by decide)
      (by decide) f).mpr ⟨hfs, hfq⟩
    have hsev := (mem_runner (stateless_line_runner.mp
      ⟨by
        rw [mem_statelessFindings] at hfs
        obtain ⟨k, l', hk, hf'⟩ := hfs
        have hstamp := (mem_statelessLine hf').1
        have hki : k = i := by omega
        subst hki
        rw [hl] at hk
        simp only [Option.some.injEq] at hk
        subst hk
        have heq : 1 + k = k + 1 := by omega
        rwa [heq] at hf', hfq⟩)).2.1
    exact ⟨f, hres.1, hfq, hsev, hfl⟩

/-- C4 witness: the amended equivalence instantiated at
`runs-on: ubuntu-latest` under the empty catalog. -/
theorem claim4_witness :
    (∃ f ∈ (LintResult.mk
        [{ ruleId := "missing-jobs", severity := .high, category := "syntax",
           line := 1, column := 1, msg := .missingJobs },
         { ruleId := "invalid-runner", severity := .medium, category := "syntax",
           line := 1, column := 10, msg := .invalidRunner "ubuntu-latest" }]
        ⟨0, 1, 1, 0, 0⟩ 75 "C").findings,
      f.ruleId = "invalid-runner" ∧ f.severity = Severity.medium ∧ f.line = 0 + 1) ↔
    (∃ v, runsOnExtract "runs-on: ubuntu-latest" = some v ∧
      containsStr v "$\x7b\x7b" = false ∧ cfgE.validRunners.contains v = false ∧
      containsStr v "matrix." = false) :=
  claim4_runner_iff w4 code4 cfgE .en
    (LintResult.mk
      [{ ruleId := "missing-jobs", severity := .high, category := "syntax",
         line := 1, column := 1, msg := .missingJobs },
       { ruleId := "invalid-runner", severity := .medium, category := "syntax",
         line := 1, column := 10, msg := .invalidRunner "ubuntu-latest" }]
      ⟨0, 1, 1, 0, 0⟩ 75 "C") 0 "runs-on: ubuntu-latest" rfl rfl

/-! ## Characterizing the unpinned-action matcher -/

theorem stripLit_some_iff {lit : String} {cs r : List Char} :
    stripLit lit cs = some r ↔ cs = lit.data ++ r := by
  unfold stripLit
  split
  · rename_i hpre
    rw [List.isPrefixOf_iff_prefix] at hpre
    obtain ⟨t, rfl⟩ := hpre
    rw [List.drop_left]
    constructor
    · rintro h
      simp only [Option.some.injEq] at h
      rw [h]
    · intro h
      have := List.append_cancel_left h
      rw [this]
  · rename_i hpre
    constructor
    · intro h
      simp at h
    · rintro rfl
      exact absurd (List.isPrefixOf_iff_prefix.mpr ⟨r, rfl⟩) hpre

theorem scanFirst_isSome_iff {α : Type} (p : List Char → Option α) (cs : List Char) :
    (scanFirst p cs).isSome = true ↔
      ∃ pre suf, cs = pre ++ suf ∧ (p suf).isSome = true := by
  induction cs with
  | nil =>
    simp only [scanFirst]
    constructor
    · intro h
      exact ⟨[], [], rfl, h⟩
    · rintro ⟨pre, suf, hcat, hp⟩
      obtain ⟨rfl, rfl⟩ := List.append_eq_nil.mp hcat.symm
      exact hp
  | cons c cs ih =>
    simp only [scanFirst]
    cases hp : p (c :: cs) with
    | some a =>
      simp only [Option.isSome_some, true_iff]
      exact ⟨[], c :: cs, rfl, by rw [hp]; rfl⟩
    | none =>
      rw [ih]
      constructor
      · rintro ⟨pre, suf, rfl, hs⟩
        exact ⟨c :: pre, suf, rfl, hs⟩
      · rintro ⟨pre, suf, hcat, hs⟩
        cases pre with
        | nil =>
          simp only [List.nil_append] at hcat
          subst hcat
          rw [hp] at hs
          simp at hs
        | cons d pre' =>
          simp only [List.cons_append, List.cons.injEq] at hcat
          exact ⟨pre', suf, hcat.2, hs⟩

theorem dropWhile_append_sat {p : Char → Bool} {a b : List Char}
    (h : ∀ c ∈ a, p c = true) : (a ++ b).dropWhile p = b.dropWhile p := by
  induction a with
  | nil => rfl
  | cons c a ih =>
    simp only [List.cons_append, List.dropWhile_cons, h c (by simp), if_true]
    exact ih (fun x hx => h x (by simp [hx]))

theorem dropWhile_cons_neg {p : Char → Bool} {c : Char} {b : List Char}
    (h : p c = false) : (c :: b).dropWhile p = c :: b := by
  simp [List.dropWhile_cons, h]

theorem takeWhile_append_fail {p : Char → Bool} {a : List Char} {c : Char} {b : List Char}
    (ha : ∀ x ∈ a, p x = true) (hc : p c = false) :
    (a ++ c :: b).takeWhile p = a := by
  induction a with
  | nil => simp [List.takeWhile_cons, hc]
  | cons d a ih =>
    simp only [List.cons_append, List.takeWhile_cons, ha d (by simp), if_true,
      List.cons.injEq, true_and]
    exact ih (fun x hx => ha x (by simp [hx]))

/-- `(l.takeWhile p ++ l.dropWhile p).drop (l.takeWhile p).length`
collapses. -/
theorem drop_takeWhile_length (p : Char → Bool) (t : List Char) :
    t.drop (t.takeWhile p).length = t.dropWhile p := by
  induction t with
  | nil => rfl
  | cons c t ih =>
    by_cases hp : p c = true
    · simp [List.takeWhile_cons, List.dropWhile_cons, hp, ih]
    · simp [List.takeWhile_cons, List.dropWhile_cons, hp]

theorem usesRefAt_isSome_iff (suf : List Char) :
    (usesRefAt suf).isSome = true ↔
      ∃ sp id rest, suf = ("uses:").data ++ sp ++ (id ++ '@' :: rest) ∧
        (∀ c ∈ sp, jsSpace c = true) ∧ id ≠ [] ∧
        (∀ c ∈ id, refIdChar c = true) ∧
        (∃ m, m ∈ unpinnedRefs ∧ ∃ tl, rest = m.data ++ tl) := by
  constructor
  · intro h
    unfold usesRefAt at h
    cases hs : stripLit "uses:" suf with
    | none => rw [hs] at h; simp at h
    | some r =>
      rw [hs] at h
      dsimp only at h
      have hcat := stripLit_some_iff.mp hs
      split at h
      · simp at h
      · rename_i hid
        split at h
        · rename_i rest heq
          cases hap : altPick rest with
          | none => rw [hap] at h; simp at h
          | some m =>
          unfold altPick at hap
          have hm : m ∈ unpinnedRefs := List.mem_of_find?_eq_some hap
          have hpre : m.data.isPrefixOf rest = true := by
            simpa using List.find?_some hap
          rw [List.isPrefixOf_iff_prefix] at hpre
          obtain ⟨tl, htl⟩ := hpre
          refine ⟨r.takeWhile jsSpace, (r.dropWhile jsSpace).takeWhile refIdChar, rest,
            ?_, ?_, ?_, ?_, m, hm, tl, htl.symm⟩
          · rw [hcat, List.append_assoc]
            congr 1
            conv_lhs => rw [← List.takeWhile_append_dropWhile jsSpace r]
            congr 1
            conv_lhs => rw [← List.takeWhile_append_dropWhile refIdChar
              (r.dropWhile jsSpace)]
            congr 1
            rw [← drop_takeWhile_length refIdChar (r.dropWhile jsSpace)]
            exact heq
          · intro x hx
            exact List.mem_takeWhile_imp hx
          · intro hnil
            rw [hnil] at hid
            simp at hid
          · intro x hx
            exact List.mem_takeWhile_imp hx
        · simp at h
  · rintro ⟨sp, id, rest, hsuf, hsp, hid, hidc, m, hm, tl, hrtl⟩
    subst hrtl
    rw [hsuf]
    unfold usesRefAt
    have hs : stripLit "uses:" (("uses:").data ++ sp ++ (id ++ '@' :: (m.data ++ tl)))
        = some (sp ++ (id ++ '@' :: (m.data ++ tl))) := by
      rw [stripLit_some_iff, List.append_assoc]
    rw [hs]
    try dsimp only
    have hdw : (sp ++ (id ++ '@' :: (m.data ++ tl))).dropWhile jsSpace
        = id ++ '@' :: (m.data ++ tl) := by
      rw [dropWhile_append_sat hsp]
      cases id with
      | nil => exact absurd rfl hid
      | cons d id' =>
        apply dropWhile_cons_neg
        have hd := hidc d (by simp)
        simp only [refIdChar, Bool.and_eq_true, Bool.not_eq_true'] at hd
        exact hd.1
    rw [hdw]
    have htw : (id ++ '@' :: (m.data ++ tl)).takeWhile refIdChar = id :=
      takeWhile_append_fail hidc (by simp [refIdChar])
    rw [htw]
    rw [if_neg (by simpa [List.isEmpty_iff] using hid)]
    rw [List.drop_left]
    have hfind : (altPick (m.data ++ tl)).isSome = true := by
      unfold altPick
      simp only [List.find?_isSome]
      exact ⟨m, hm, List.isPrefixOf_iff_prefix.mpr ⟨tl, rfl⟩⟩
    split
    · rename_i rest2 heq2
      simp only [List.cons.injEq, true_and] at heq2
      subst heq2
      cases hap : altPick (m.data ++ tl) with
      | none => rw [hap] at hfind; simp at hfind
      | some x => rfl
    · rename_i hne
      exact absurd rfl (hne (m.data ++ tl))

theorem unpinnedExtract_isSome_iff (line : String) :
    (unpinnedExtract line).isSome = true ↔
      ∃ pre sp id rest, line.data = pre ++ (("uses:").data ++ sp ++ (id ++ '@' :: rest)) ∧
        (∀ c ∈ sp, jsSpace c = true) ∧ id ≠ [] ∧ (∀ c ∈ id, refIdChar c = true) ∧
        ∃ m ∈ unpinnedRefs, ∃ tl, rest = m.data ++ tl := by
  unfold unpinnedExtract
  rw [scanFirst_isSome_iff]
  constructor
  · rintro ⟨pre, suf, hcat, hsome⟩
    obtain ⟨sp, id, rest, hsuf, hsp, hid, hidc, hm⟩ := (usesRefAt_isSome_iff suf).mp hsome
    exact ⟨pre, sp, id, rest, by rw [hcat, hsuf], hsp, hid, hidc, hm⟩
  · rintro ⟨pre, sp, id, rest, hcat, hsp, hid, hidc, hm⟩
    exact ⟨pre, _, hcat,
      (usesRefAt_isSome_iff _).mpr ⟨sp, id, rest, rfl, hsp, hid, hidc, hm⟩⟩

/-- Shape of an unpinned-action finding. -/
theorem mem_unpinnedFindings_iff (line : String) (n : Nat) (f : Finding) :
    f ∈ unpinnedFindings line n ↔
      ∃ p, unpinnedExtract line = some p ∧
        f = { ruleId := "unpinned-action", severity := .high, category := "security",
              line := n, column := jsIndexOf line "uses:" + 1,
              msg := .unpinnedAction p.1 p.2 } := by
  unfold unpinnedFindings
  cases hv : unpinnedExtract line with
  | none => simp
  | some p =>
    simp only [List.mem_singleton]
    constructor
    · intro hef
      exact ⟨p, rfl, hef⟩
    · rintro ⟨p', hp', hef⟩
      simp only [Option.some.injEq] at hp'
      subst hp'
      exact hef

/-- Any finding of one stateless line scan of an in-range line belongs to
the run's result. -/
theorem mem_res_of_stateless_line {w : Yaml} {code : String} {cfg : Config}
    {loc : Locale} {res : LintResult} {i : Nat} {line : String}
    (h : lint (.ok w) code cfg loc = .ok res)
    (hl : (splitLines code)[i]? = some line) {g : Finding}
    (hg : g ∈ statelessLineFindings cfg code line (i + 1)) : g ∈ res.findings := by
  obtain ⟨sf, hsf, hfind, -, -, -⟩ := lint_ok_elim h
  rw [hfind]
  simp only [List.mem_append]
  refine Or.inl (Or.inl (Or.inl (Or.inr ?_)))
  rw [mem_statelessFindings]
  refine ⟨i, line, hl, ?_⟩
  have heq : 1 + i = i + 1 := by omega
  rwa [heq]

/-! ## Claim C5 -/

/-- C5, counterexample: `uses: actions/checkout@develop` has ref
`develop`, outside the five-element set (which `claimedUnpinnedTest`,
written from the claim's words, confirms), yet the unanchored alternation
matches the prefix `dev` and an unpinned-action finding is emitted with
captured ref "dev". -/
theorem claim5_counterexample :
    lint (.ok w5) code5 cfgE .en = .ok
      { findings := [{ ruleId := "missing-jobs", severity := .high, category := "syntax",
                       line := 1, column := 1, msg := .missingJobs },
                     { ruleId := "unpinned-action", severity := .high, category := "security",
                       line := 1, column := 1,
                       msg := .unpinnedAction "actions/checkout" "dev" }],
        summary := ⟨0, 2, 0, 0, 0⟩, score := 70, grade := "C" } ∧
    claimedUnpinnedTest "uses: actions/checkout@develop" = false ∧
    countRule "unpinned-action" (resOf (lint (.ok w5) code5 cfgE .en)).findings = 1 :=
  ⟨rfl, by decide, by decide⟩

/-- C5 amended: an unpinned-action (high) finding is emitted for a line
exactly when the line matches `uses: <id>@<ref>` with the ref BEGINNING
with one of main, master, latest, dev, HEAD (the alternation is not
anchored at a token boundary, so e.g. `@develop` matches with captured
ref "dev"); the captured pair (action, ref) is the one the message
carries. -/
theorem claim5_unpinned_iff :
    ∀ (w : Yaml) (code : String) (cfg : Config) (loc : Locale) (res : LintResult)
      (i : Nat) (line : String),
      lint (.ok w) code cfg loc = .ok res →
      (splitLines code)[i]? = some line →
      (((∃ f ∈ res.findings, f.ruleId = "unpinned-action" ∧ f.severity = Severity.high
          ∧ f.line = i + 1) ↔
        (∃ pre sp id rest, line.data = pre ++ (("uses:").data ++ sp ++ (id ++ '@' :: rest)) ∧
          (∀ c ∈ sp, jsSpace c = true) ∧ id ≠ [] ∧ (∀ c ∈ id, refIdChar c = true) ∧
          ∃ m ∈ unpinnedRefs, ∃ tl, rest = m.data ++ tl)) ∧
       (∀ a r, unpinnedExtract line = some (a, r) →
         { ruleId := "unpinned-action", severity := Severity.high, category := "security",
           line := i + 1, column := jsIndexOf line "uses:" + 1,
           msg := Msg.unpinnedAction a r : Finding } ∈ res.findings)) := by
  intro w code cfg loc res i line h hl
  constructor
  · rw [← unpinnedExtract_isSome_iff]
    constructor
    · rintro ⟨f, hf, hid, hsev, hline⟩
      have hstl := (lint_rule_to_stateless h (by decide) (by decide) (by decide)
        (by decide) f).mp ⟨hf, hid⟩
      obtain ⟨g, hg, hgid⟩ := (exists_stateless_at_line cfg code (splitLines code) i line hl
        (fun f => f.ruleId = "unpinned-action")).mp ⟨f, ⟨hstl.1, hstl.2⟩, hline⟩
      have hup := stateless_line_unpinned.mp ⟨hg, hgid⟩
      obtain ⟨p, hp, -⟩ := (mem_unpinnedFindings_iff _ _ _).mp hup
      rw [hp]
      rfl
    · intro hsome
      rw [Option.isSome_iff_exists] at hsome
      obtain ⟨p, hp⟩ := hsome
      have hg : { ruleId := "unpinned-action", severity := Severity.high,
                  category := "security", line := i + 1,
                  column := jsIndexOf line "uses:" + 1,
                  msg := Msg.unpinnedAction p.1 p.2 : Finding } ∈
          unpinnedFindings line (i + 1) :=
        (mem_unpinnedFindings_iff _ _ _).mpr ⟨p, hp, rfl⟩
      have hslf := (@stateless_line_unpinned cfg code line (i + 1) _).mpr hg
      exact ⟨_, mem_res_of_stateless_line h hl hslf.1, rfl, rfl, rfl⟩
  · intro a r hp
    have hg : { ruleId := "unpinned-action", severity := Severity.high,
                category := "security", line := i + 1,
                column := jsIndexOf line "uses:" + 1,
                msg := Msg.unpinnedAction a r : Finding } ∈
        unpinnedFindings line (i + 1) :=
      (mem_unpinnedFindings_iff _ _ _).mpr ⟨(a, r), hp, rfl⟩
    have hslf := (@stateless_line_unpinned cfg code line (i + 1) _).mpr hg
    exact mem_res_of_stateless_line h hl hslf.1

/-- C5 witness: the amended equivalence and captured pair at
`- uses: actions/checkout@main` (line 5 of a well-formed workflow). -/
theorem claim5_witness :
    (((∃ f ∈ (LintResult.mk
        [{ ruleId := "unpinned-action", severity := .high, category := "security",
           line := 5, column := 9, msg := .unpinnedAction "actions/checkout" "main" }]
        ⟨0, 1, 0, 0, 0⟩ 85 "B").findings,
        f.ruleId = "unpinned-action" ∧ f.severity = Severity.high ∧ f.line = 4 + 1) ↔
      (∃ pre sp id rest,
        ("      - uses: actions/checkout@main").data =
          pre ++ (("uses:").data ++ sp ++ (id ++ '@' :: rest)) ∧
        (∀ c ∈ sp, jsSpace c = true) ∧ id ≠ [] ∧ (∀ c ∈ id, refIdChar c = true) ∧
        ∃ m ∈ unpinnedRefs, ∃ tl, rest = m.data ++ tl)) ∧
     (∀ a r, unpinnedExtract "      - uses: actions/checkout@main" = some (a, r) →
       { ruleId := "unpinned-action", severity := Severity.high, category := "security",
         line := 4 + 1, column := jsIndexOf "      - uses: actions/checkout@main" "uses:" + 1,
         msg := Msg.unpinnedAction a r : Finding } ∈ (LintResult.mk
        [{ ruleId := "unpinned-action", severity := .high, category := "security",
           line := 5, column := 9, msg := .unpinnedAction "actions/checkout" "main" }]
        ⟨0, 1, 0, 0, 0⟩ 85 "B").findings)) :=
  claim5_unpinned_iff wClean codeClean cfgW .en
    (LintResult.mk
      [{ ruleId := "unpinned-action", severity := .high, category := "security",
         line := 5, column := 9, msg := .unpinnedAction "actions/checkout" "main" }]
      ⟨0, 1, 0, 0, 0⟩ 85 "B") 4 "      - uses: actions/checkout@main" rfl rfl

/-! ## Claim C8 -/

/-- Shape of a hardcoded-secret finding. -/
theorem mem_secretFindings_iff (cfg : Config) (line : String) (n : Nat) (f : Finding) :
    f ∈ secretFindings cfg line n ↔
      ∃ sp ∈ cfg.secretPatterns, (sp.firstMatch line).isSome = true ∧
        containsStr line "$\x7b\x7b secrets." = false ∧
        f = { ruleId := "hardcoded-secret", severity := .critical, category := "security",
              line := n,
              column := match sp.firstMatch line with
                | some m => jsIndexOf line m + 1
                | none => 1,
              msg := .hardcodedSecret sp.name } := by
  unfold secretFindings
  simp only [List.mem_map, List.mem_filter]
  constructor
  · rintro ⟨sp, ⟨hmem, hcond⟩, rfl⟩
    rw [Bool.and_eq_true, Bool.not_eq_true'] at hcond
    exact ⟨sp, hmem, hcond.1, hcond.2, rfl⟩
  · rintro ⟨sp, hmem, h1, h2, rfl⟩
    exact ⟨sp, ⟨hmem, by rw [Bool.and_eq_true, Bool.not_eq_true']; exact ⟨h1, h2⟩⟩, rfl⟩

/-- C8: a hardcoded-secret (critical) finding is emitted for a line iff
some SecretPattern regex matches the line and the line does not contain
the literal text `${{ secrets.` (written `$\x7b\x7b secrets.` below). -/
theorem claim8_secret_iff :
    ∀ (w : Yaml) (code : String) (cfg : Config) (loc : Locale) (res : LintResult)
      (i : Nat) (line : String),
      lint (.ok w) code cfg loc = .ok res →
      (splitLines code)[i]? = some line →
      ((∃ f ∈ res.findings, f.ruleId = "hardcoded-secret" ∧ f.severity = Severity.critical
          ∧ f.line = i + 1) ↔
        ((∃ sp ∈ cfg.secretPatterns, (sp.firstMatch line).isSome = true) ∧
          containsStr line "$\x7b\x7b secrets." = false)) := by
  intro w code cfg loc res i line h hl
  constructor
  · rintro ⟨f, hf, hid, hsev, hline⟩
    have hstl := (lint_rule_to_stateless h (by decide) (by decide) (by decide)
      (by decide) f).mp ⟨hf, hid⟩
    obtain ⟨g, hg, hgid⟩ := (exists_stateless_at_line cfg code (splitLines code) i line hl
      (fun f => f.ruleId = "hardcoded-secret")).mp ⟨f, ⟨hstl.1, hstl.2⟩, hline⟩
    have hsec := stateless_line_secret.mp ⟨hg, hgid⟩
    obtain ⟨sp, hmem, h1, h2, -⟩ := (mem_secretFindings_iff _ _ _ _).mp hsec
    exact ⟨⟨sp, hmem, h1⟩, h2⟩
  · rintro ⟨⟨sp, hmem, h1⟩, h2⟩
    have hg : ({ ruleId := "hardcoded-secret", severity := .critical,
                 category := "security", line := i + 1,
                 column := match sp.firstMatch line with
                   | some m => jsIndexOf line m + 1
                   | none => 1,
                 msg := .hardcodedSecret sp.name : Finding }) ∈
        secretFindings cfg line (i + 1) :=
      (mem_secretFindings_iff _ _ _ _).mpr ⟨sp, hmem, h1, h2, rfl⟩
    have hslf := (@stateless_line_secret cfg code line (i + 1) _).mpr hg
    exact ⟨_, mem_res_of_stateless_line h hl hslf.1, rfl, rfl, rfl⟩

/-- C8 witness: the equivalence instantiated at `token: ghp_xABC` (line 5
of `codeSecret`, matching `cfgW`'s secret pattern). -/
theorem claim8_witness :
    (∃ f ∈ (LintResult.mk
        [{ ruleId := "hardcoded-secret", severity := .critical, category := "security",
           line := 5, column := 8, msg := .hardcodedSecret "Token" }]
        ⟨1, 0, 0, 0, 0⟩ 75 "C").findings,
      f.ruleId = "hardcoded-secret" ∧ f.severity = Severity.critical ∧ f.line = 4 + 1) ↔
    ((∃ sp ∈ cfgW.secretPatterns, (sp.firstMatch "token: ghp_xABC").isSome = true) ∧
      containsStr "token: ghp_xABC" "$\x7b\x7b secrets." = false) :=
  claim8_secret_iff wSecret codeSecret cfgW .en
    (LintResult.mk
      [{ ruleId := "hardcoded-secret", severity := .critical, category := "security",
         line := 5, column := 8, msg := .hardcodedSecret "Token" }]
      ⟨1, 0, 0, 0, 0⟩ 75 "C") 4 "token: ghp_xABC" rfl rfl

/-! ## Claim C6 -/

/-- C6, counterexample: for `code6` the engine runs the stateless checks
BEFORE passes A/B/C (the excessive-permissions finding of line 9 precedes
the glob finding of line 8), and the structural findings are not in line
order (invalid-cron of line 5 precedes the per-job findings of line 2). -/
theorem claim6_counterexample :
    lint (.ok w6) code6 cfgE .en = .ok
      { findings := [{ ruleId := "invalid-cron", severity := .high, category := "syntax",
                       line := 5, column := 1, msg := .invalidCron "* * *" },
                     { ruleId := "missing-runs-on", severity := .high, category := "syntax",
                       line := 2, column := 1, msg := .missingRunsOn "build" },
                     { ruleId := "missing-steps", severity := .high, category := "syntax",
                       line := 2, column := 1, msg := .missingSteps "build" },
                     { ruleId := "excessive-permissions", severity := .high,
                       category := "security", line := 9, column := 1,
                       msg := .excessivePermissions },
                     { ruleId := "invalid-glob-pattern", severity := .high,
                       category := "syntax", line := 8, column := 10,
                       msg := .invalidGlobPattern "\\d" }],
        summary := ⟨0, 5, 0, 0, 0⟩, score := 25, grade := "F" } ∧
    (resOf (lint (.ok w6) code6 cfgE .en)).findings ≠
      ([{ ruleId := "invalid-cron", severity := .high, category := "syntax",
          line := 5, column := 1, msg := .invalidCron "* * *" },
        { ruleId := "missing-runs-on", severity := .high, category := "syntax",
          line := 2, column := 1, msg := .missingRunsOn "build" },
        { ruleId := "missing-steps", severity := .high, category := "syntax",
          line := 2, column := 1, msg := .missingSteps "build" }]
       ++ globFindings (splitLines code6) ++ actFindings cfgE (splitLines code6)
       ++ evFindings cfgE (splitLines code6)
       ++ statelessFindings cfgE code6 (splitLines code6)) ∧
    structuralFindings w6 (splitLines code6) cfgE = .ok
      [{ ruleId := "invalid-cron", severity := .high, category := "syntax",
         line := 5, column := 1, msg := .invalidCron "* * *" },
       { ruleId := "missing-runs-on", severity := .high, category := "syntax",
         line := 2, column := 1, msg := .missingRunsOn "build" },
       { ruleId := "missing-steps", severity := .high, category := "syntax",
         line := 2, column := 1, msg := .missingSteps "build" }] ∧
    ¬ List.Pairwise (fun a b : Finding => a.line ≤ b.line)
      [{ ruleId := "invalid-cron", severity := .high, category := "syntax",
         line := 5, column := 1, msg := .invalidCron "* * *" },
       { ruleId := "missing-runs-on", severity := .high, category := "syntax",
         line := 2, column := 1, msg := .missingRunsOn "build" },
       { ruleId := "missing-steps", severity := .high, category := "syntax",
         line := 2, column := 1, msg := .missingSteps "build" }] :=
  ⟨rfl, by decide, rfl, by decide⟩

/-- C6 amended: the findings list is the concatenation, in this order, of
the Structural Validator findings, the stateless per-line checks, Pass A
(glob sections), Pass B (action inputs) and Pass C (event-trigger keys);
each of the four line-scanning passes is internally in non-decreasing
line order (the structural findings follow check order, not line
order). -/
theorem claim6_ordering :
    ∀ (w : Yaml) (code : String) (cfg : Config) (loc : Locale) (res : LintResult),
      lint (.ok w) code cfg loc = .ok res →
      (∃ sf, structuralFindings w (splitLines code) cfg = .ok sf ∧
        res.findings = sf ++ statelessFindings cfg code (splitLines code)
          ++ globFindings (splitLines code) ++ actFindings cfg (splitLines code)
          ++ evFindings cfg (splitLines code)) ∧
      List.Pairwise (fun a b => a.line ≤ b.line)
        (statelessFindings cfg code (splitLines code)) ∧
      List.Pairwise (fun a b => a.line ≤ b.line) (globFindings (splitLines code)) ∧
      List.Pairwise (fun a b => a.line ≤ b.line) (actFindings cfg (splitLines code)) ∧
      List.Pairwise (fun a b => a.line ≤ b.line) (evFindings cfg (splitLines code)) := by
  intro w code cfg loc res h
  obtain ⟨sf, hsf, hfind, -, -, -⟩ := lint_ok_elim h
  refine ⟨⟨sf, hsf, hfind⟩, ?_, ?_, ?_, ?_⟩
  · exact scanLines_sorted (statelessStep cfg code)
      (fun _ _ _ g hg => (mem_statelessLine (f := g) hg).1) _ _ _
  · exact scanLines_sorted globStep
      (fun s n l g hg => (globStep_emit s n l g hg).2) _ _ _
  · exact scanLines_sorted (actStep cfg)
      (fun s n l g hg => (actStep_emit cfg s n l g hg).2) _ _ _
  · exact scanLines_sorted (evStep cfg)
      (fun s n l g hg => (evStep_emit cfg s n l g hg).2) _ _ _

/-- C6 witness: the amended decomposition instantiated at `code6`. -/
theorem claim6_witness :
    (∃ sf, structuralFindings w6 (splitLines code6) cfgE = .ok sf ∧
      (LintResult.mk
        [{ ruleId := "invalid-cron", severity := .high, category := "syntax",
           line := 5, column := 1, msg := .invalidCron "* * *" },
         { ruleId := "missing-runs-on", severity := .high, category := "syntax",
           line := 2, column := 1, msg := .missingRunsOn "build" },
         { ruleId := "missing-steps", severity := .high, category := "syntax",
           line := 2, column := 1, msg := .missingSteps "build" },
         { ruleId := "excessive-permissions", severity := .high, category := "security",
           line := 9, column := 1, msg := .excessivePermissions },
         { ruleId := "invalid-glob-pattern", severity := .high, category := "syntax",
           line := 8, column := 10, msg := .invalidGlobPattern "\\d" }]
        ⟨0, 5, 0, 0, 0⟩ 25 "F").findings
        = sf ++ statelessFindings cfgE code6 (splitLines code6)
          ++ globFindings (splitLines code6) ++ actFindings cfgE (splitLines code6)
          ++ evFindings cfgE (splitLines code6)) ∧
    List.Pairwise (fun a b => a.line ≤ b.line)
      (statelessFindings cfgE code6 (splitLines code6)) ∧
    List.Pairwise (fun a b => a.line ≤ b.line) (globFindings (splitLines code6)) ∧
    List.Pairwise (fun a b => a.line ≤ b.line) (actFindings cfgE (splitLines code6)) ∧
    List.Pairwise (fun a b => a.line ≤ b.line) (evFindings cfgE (splitLines code6)) :=
  claim6_ordering w6 code6 cfgE .en
    (LintResult.mk
      [{ ruleId := "invalid-cron", severity := .high, category := "syntax",
         line := 5, column := 1, msg := .invalidCron "* * *" },
       { ruleId := "missing-runs-on", severity := .high, category := "syntax",
         line := 2, column := 1, msg := .missingRunsOn "build" },
       { ruleId := "missing-steps", severity := .high, category := "syntax",
         line := 2, column := 1, msg := .missingSteps "build" },
       { ruleId := "excessive-permissions", severity := .high, category := "security",
         line := 9, column := 1, msg := .excessivePermissions },
       { ruleId := "invalid-glob-pattern", severity := .high, category := "syntax",
         line := 8, column := 10, msg := .invalidGlobPattern "\\d" }]
      ⟨0, 5, 0, 0, 0⟩ 25 "F") rfl

/-! ## Claim C9 -/

/-- An unknown-event-key finding carries the non-empty valid-key set the
event schema yields for its event. -/
theorem mem_evItemF_detail {cfg : Config} {ev line t : String} {n : Nat} {f : Finding}
    (hf : f ∈ evItemF cfg ev line t n) :
    ∃ k ks, f.msg = .unknownEventKey k ev ks ∧ lookupEventKeys cfg ev = some ks ∧ ks ≠ [] := by
  simp only [evItemF] at hf
  split at hf
  · rename_i k hk
    cases hlk : lookupEventKeys cfg ev with
    | none =>
      rw [hlk] at hf
      simp at hf
    | some ks =>
      rw [hlk] at hf
      simp only [Option.getD_some] at hf
      split at hf
      · rename_i hcond
        simp only [List.mem_singleton] at hf
        subst hf
        refine ⟨k, ks, rfl, rfl, ?_⟩
        intro hnil
        subst hnil
        simp at hcond
      · simp at hf
  · simp at hf

theorem evStep_msg (cfg : Config) :
    ∀ (s : Bool × Int × Option String) (n : Nat) (l : String),
      ∀ f ∈ (evStep cfg s n l).2,
        ∃ k ev ks, f.msg = .unknownEventKey k ev ks ∧
          lookupEventKeys cfg ev = some ks ∧ ks ≠ [] := by
  intro s n l f hf
  simp only [evStep] at hf
  repeat' split at hf
  all_goals first
    | (obtain ⟨k, ks, hm, hlk, hne⟩ := mem_evItemF_detail hf
       exact ⟨k, _, ks, hm, hlk, hne⟩)
    | simp_all

/-- C9: for `on:\n  push:\n    branch: main`, whenever the event schema
knows `push` with a non-empty valid-key set that excludes `branch`, lint
emits an unknown-event-key (high) finding for key `branch` under event
`push` at line 3 whose message carries that valid-key list; and in
general no key is ever flagged under an event whose valid-key set is
empty or absent. -/
theorem claim9_unknown_event_key :
    (∀ (cfg : Config) (loc : Locale) (ks : List String),
      lookupEventKeys cfg "push" = some ks → ks ≠ [] → "branch" ∉ ks →
      ({ ruleId := "unknown-event-key", severity := .high, category := "syntax",
         line := 3, column := 5, msg := .unknownEventKey "branch" "push" ks : Finding }) ∈
        (resOf (lint (.ok w9) code9 cfg loc)).findings) ∧
    (∀ (cfg : Config) (lines : List String) (f : Finding), f ∈ evFindings cfg lines →
      ∃ k ev ks, f.msg = .unknownEventKey k ev ks ∧
        lookupEventKeys cfg ev = some ks ∧ ks ≠ []) := by
  constructor
  · intro cfg loc ks h1 h2 h3
    have hks : ks.isEmpty = false := by
      cases ks with
      | nil => exact absurd rfl h2
      | cons a t => rfl
    have hkc : ks.contains "branch" = false := by
      cases hcc : ks.contains "branch" with
      | false => rfl
      | true => exact absurd (List.mem_of_elem_eq_true hcc) h3
    have s1 : evStep cfg (false, 0, none) 1 "on:" = ((true, 0, none), []) := rfl
    have s2 : evStep cfg (true, 0, none) 2 "  push:" = ((true, 0, some "push"), []) := by
      simp only [evStep]
      rw [if_neg (by decide)]
      simp only [show jsTrim "  push:" = "push:" from rfl,
        show jsIndent "  push:" = 2 from rfl,
        show evMatch "push:" = some "push" from rfl]
      rw [if_neg (by decide)]
      simp [Option.filter, h1]
    have s3 : evStep cfg (true, 0, some "push") 3 "    branch: main" =
        ((true, 0, some "push"),
         [{ ruleId := "unknown-event-key", severity := .high, category := "syntax",
            line := 3, column := 5, msg := .unknownEventKey "branch" "push" ks }]) := by
      simp only [evStep]
      rw [if_neg (by decide)]
      simp [evItemF, Option.filter, h1, hks, hkc, h3,
        show jsTrim "    branch: main" = "branch: main" from rfl,
        show jsIndent "    branch: main" = 4 from rfl,
        show evMatch "branch: main" = none from rfl,
        show keyMatch "branch: main" = some "branch" from rfl,
        show jsIndexOf "    branch: main" "branch" = 4 from rfl]
    have hev : evFindings cfg (splitLines code9) =
        [{ ruleId := "unknown-event-key", severity := .high, category := "syntax",
           line := 3, column := 5, msg := .unknownEventKey "branch" "push" ks }] := by
      show scanLines (evStep cfg) (false, 0, none) 1
        ["on:", "  push:", "    branch: main"] = _
      rw [scanLines_cons, s1]
      rw [scanLines_cons, s2]
      rw [scanLines_cons, s3]
      simp [scanLines]
    obtain ⟨r, hr⟩ : ∃ r, lint (.ok w9) code9 cfg loc = .ok r := ⟨_, rfl⟩
    rw [hr]
    obtain ⟨sf, -, hfind, -, -, -⟩ := lint_ok_elim hr
    show _ ∈ (resOf (.ok r)).findings
    simp only [resOf]
    rw [hfind]
    simp only [List.mem_append]
    refine Or.inr ?_
    rw [hev]
    simp
  · intro cfg lines f hf
    exact scanLines_mem (evStep cfg) (evStep_msg cfg) lines _ _ f hf

/-- C9 witness: the finding materializes under a schema knowing
`push : [branches, tags]`. -/
theorem claim9_witness :
    ({ ruleId := "unknown-event-key", severity := .high, category := "syntax",
       line := 3, column := 5,
       msg := .unknownEventKey "branch" "push" ["branches", "tags"] : Finding }) ∈
      (resOf (lint (.ok w9) code9 cfg9 .en)).findings :=
  claim9_unknown_event_key.1 cfg9 .en ["branches", "tags"] rfl (by decide) (by decide)

end Workflowlint
